import Mathlib

/-!
Verification of the binary-resource store of the Cyber-Twin-Dragon card
editor (src/src/main.py).  The byte image (a Python bytearray) is modelled
as a function from offsets to byte values together with an explicit length;
every write of the program becomes a pointwise function update.  All
definitions below are direct translations of the Python source.
-/

namespace CyberTwin

/-- Model of the ROM image: Python bytearray self.rom_data.  data i is the
byte at offset i (only offsets below len are meaningful; all writes the
program performs are in bounds in the situations the theorems cover). -/
structure Rom where
  data : Nat → Nat
  len : Nat

/-- Single byte store rom[i] = v. -/
def setByte (rom : Rom) (i v : Nat) : Rom :=
  ⟨fun j => if j = i then v else rom.data j, rom.len⟩

/-- Python helper _read_u16: int.from_bytes(data[offset:offset+2], "little"). -/
def readU16 (rom : Rom) (off : Nat) : Nat :=
  rom.data off + 256 * rom.data (off + 1)

/-- Python helper _read_u32: int.from_bytes(data[offset:offset+4], "little"). -/
def readU32 (rom : Rom) (off : Nat) : Nat :=
  rom.data off + 256 * rom.data (off + 1) + 65536 * rom.data (off + 2) +
    16777216 * rom.data (off + 3)

/-- Python helper _write_u16: data[offset:offset+2] = (value & 0xFFFF).to_bytes(2, "little"). -/
def writeU16 (rom : Rom) (off v : Nat) : Rom :=
  setByte (setByte rom off (v % 65536 % 256)) (off + 1) (v % 65536 / 256)

/-- Python helper _write_u32: data[offset:offset+4] = (value & 0xFFFFFFFF).to_bytes(4, "little"). -/
def writeU32 (rom : Rom) (off v : Nat) : Rom :=
  let w := v % 4294967296
  setByte (setByte (setByte (setByte rom off (w % 256)) (off + 1) (w / 256 % 256))
    (off + 2) (w / 65536 % 256)) (off + 3) (w / 16777216 % 256)

/-- Slice assignment rom[a:a+bs.length] = bs (used by the program only with
the destination range inside the image). -/
def writeBytes (rom : Rom) (a : Nat) : List Nat → Rom
  | [] => rom
  | b :: bs => writeBytes (setByte rom a b) (a + 1) bs

/-- Loop "for i in range(a, a+n): if i < len(rom_data): rom_data[i] = 0"
from _write_string_and_update_pointer. -/
def zeroRange (rom : Rom) (a n : Nat) : Rom :=
  match n with
  | 0 => rom
  | n + 1 => zeroRange (if a < rom.len then setByte rom a 0 else rom) (a + 1) n

/-- Slice assignment rom[a:a+n] = b"\xFF" * n (deck / pack stores). -/
def fillFF (rom : Rom) (a n : Nat) : Rom :=
  match n with
  | 0 => rom
  | n + 1 => fillFF (setByte rom a 255) (a + 1) n

@[simp]
theorem setByte_data (rom : Rom) (i v j : Nat) :
    (setByte rom i v).data j = if j = i then v else rom.data j := rfl

@[simp]
theorem setByte_len (rom : Rom) (i v : Nat) : (setByte rom i v).len = rom.len := rfl

theorem zeroRange_len (rom : Rom) (a n : Nat) : (zeroRange rom a n).len = rom.len := by
  induction n generalizing rom a with
  | zero => rfl
  | succ n ih =>
    simp only [zeroRange]
    rw [ih]
    split <;> rfl

theorem zeroRange_data (rom : Rom) (a n j : Nat) :
    (zeroRange rom a n).data j =
      if a ≤ j ∧ j < a + n ∧ j < rom.len then 0 else rom.data j := by
  induction n generalizing rom a with
  | zero =>
    rw [zeroRange, if_neg (by omega)]
  | succ n ih =>
    rw [zeroRange, ih]
    by_cases hlen : a < rom.len
    · rw [if_pos hlen]
      simp only [setByte_len, setByte_data]
      split_ifs <;> omega
    · rw [if_neg hlen]
      split_ifs <;> omega

theorem fillFF_len (rom : Rom) (a n : Nat) : (fillFF rom a n).len = rom.len := by
  induction n generalizing rom a with
  | zero => rfl
  | succ n ih => simp only [fillFF]; rw [ih]; rfl

theorem fillFF_data (rom : Rom) (a n j : Nat) :
    (fillFF rom a n).data j = if a ≤ j ∧ j < a + n then 255 else rom.data j := by
  induction n generalizing rom a with
  | zero =>
    rw [fillFF, if_neg (by omega)]
  | succ n ih =>
    rw [fillFF, ih]
    simp only [setByte_data]
    split_ifs <;> omega

theorem writeBytes_len (rom : Rom) (a : Nat) (bs : List Nat) :
    (writeBytes rom a bs).len = rom.len := by
  induction bs generalizing rom a with
  | nil => rfl
  | cons b bs ih => simp only [writeBytes]; rw [ih]; rfl

theorem writeBytes_data (rom : Rom) (a : Nat) (bs : List Nat) (j : Nat) :
    (writeBytes rom a bs).data j =
      if a ≤ j ∧ j < a + bs.length then bs.getD (j - a) 0 else rom.data j := by
  induction bs generalizing rom a with
  | nil =>
    rw [writeBytes, if_neg (by simp)]
  | cons b bs ih =>
    rw [writeBytes, ih]
    simp only [setByte_data, List.length_cons]
    by_cases hj : j = a
    · subst hj
      rw [if_neg (by omega), if_pos rfl, if_pos (by omega), Nat.sub_self,
        List.getD_cons_zero]
    · rw [if_neg hj]
      by_cases h1 : a + 1 ≤ j ∧ j < a + 1 + bs.length
      · rw [if_pos h1, if_pos (by omega)]
        have hsub : j - a = (j - (a + 1)) + 1 := by omega
        rw [hsub, List.getD_cons_succ]
      · rw [if_neg h1, if_neg (by omega)]

/-! Constants of the ROM layout, from the top of src/src/main.py. -/

def TEXT_BASE : Nat := 0x15BF724

def TEXT_LIMIT : Nat := 0x162248A

def CARD_NAME_PTR_BASE : Nat := 0x15BB594

def CARD_DESC_PTR_BASE : Nat := 0x15BD65C

def CARD_STATS_BASE : Nat := 0x18169B8

def CARD_STATS_SIZE : Nat := 0x16

def SECOND_CARD_STATS_BASE : Nat := 0x1821E04

def SECOND_CARD_STATS_SIZE : Nat := 0x16

def SECOND_STATS_COUNT : Nat := 2648

def CARD_ID_TABLE_BASE : Nat := 0x15B7CCC

def KONAMI_ID_BASE : Nat := 4007

def NUM_CARDS : Nat := 2098

def NAME_SORT_TABLE_BASE : Nat := 0x1832606

def NAME_SORT_EXCLUDE_START : Nat := 2080

def NAME_SORT_EXCLUDE_END : Nat := 2097

def NUM_CARD_GFX : Nat := 2331

def CARD_GFX_BASE : Nat := 0x510640

def CARD_GFX_SIZE : Nat := 0x12C0

def CARD_PAL_BASE : Nat := 0x4C76C0

def CARD_PAL_SIZE : Nat := 0x80

def PASSWORD_TABLE_BASE : Nat := 0x15B94CC

def PRICE_TABLE_BASE : Nat := 0x1CEDFA4

def PASSWORD_ENTRY_SIZE : Nat := 4

def PRICE_ENTRY_SIZE : Nat := 4

def GBA_ROM_BASE : Nat := 0x08000000

def FREE_SPACE_START : Nat := 0x162248C

/-- Python str.encode("ascii", errors="replace"): every code point above
0x7F becomes a single byte 63, the question mark. -/
def encodeAscii (cs : List Nat) : List Nat :=
  cs.map fun c => if c ≤ 127 then c else 63

/-- Little-endian bytes of rel.to_bytes(4, "little"); the caller has checked
rel ≤ 0xFFFFFFFF. -/
def u32Bytes (v : Nat) : List Nat :=
  [v % 256, v / 256 % 256, v / 65536 % 256, v / 16777216 % 256]

/-! The text-arena free-space scan, _find_free_space (main.py lines
2142-2163).  The Python for-loop over range(start, end) is rendered with a
fuel argument equal to the number of remaining loop iterations, i.e.
end - addr. -/

/-- Loop body of _find_free_space: addr is the current address running over
range(start, ed), runStart and runLength the current run of zero bytes
(runStart = none encodes Python run_start is None).  The fuel argument only
bounds the number of iterations; the loop exit is the addr < ed guard. -/
def ffsGo (rom : Rom) (size ed : Nat) : Nat → Nat → Option Nat → Nat → Option Nat
  | 0, _, _, _ => none
  | fuel + 1, addr, runStart, runLength =>
    if addr < ed then
      if rom.data addr = 0 then
        let rs := runStart.getD addr
        let rl := if runStart.isSome then runLength + 1 else 1
        if size ≤ rl then some (rs + 1)
        else ffsGo rom size ed fuel (addr + 1) (some rs) rl
      else ffsGo rom size ed fuel (addr + 1) none 0
    else none

/-- Python _find_free_space(rom_data, size): scan [TEXT_BASE,
min(TEXT_LIMIT, len)) for the first run of zero bytes of length at least
size and return run_start + 1.  TEXT_LIMIT iterations of fuel are more than
the scan window TEXT_LIMIT - TEXT_BASE can consume. -/
def findFreeSpace (rom : Rom) (size : Nat) : Option Nat :=
  let ed := min TEXT_LIMIT rom.len
  if size = 0 then none
  else ffsGo rom size ed TEXT_LIMIT TEXT_BASE none 0

/-- Save-time failures of the string store; the Python code raises
RuntimeError with a message built from the same data (card index and byte
count for the allocation failure). -/
inductive WriteErr where
  | noFreeSpace (cardIndex needed : Nat) (isName : Bool)
  | relPtrOutOfRange
  | writeOutOfBounds
  | noTerminatorSpace
  | statsOutOfRange (cardIndex : Nat)
deriving DecidableEq

/-- One text record of a card: the name or the description text with its
current address, slot size and pointer-cell offset (CardEntry fields name /
name_addr / name_slot_size / name_ptr_off, or the desc_ counterparts). -/
structure TextRec where
  text : List Nat
  addr : Nat
  slotSize : Nat
  ptrOff : Nat
deriving DecidableEq

/-- Lines 2211-2224 of _write_string_and_update_pointer: the common epilogue
of both branches.  origAddr and origSlot are the Python locals orig_addr and
slot_size read at the top of the function. -/
def finishTextWrite (rom : Rom) (r : TextRec) (writeAddr origAddr origSlot needed : Nat)
    (encoded : List Nat) : Except WriteErr (Rom × TextRec) :=
  if rom.len < writeAddr + needed then .error .writeOutOfBounds
  else
    let rom1 := writeBytes rom writeAddr encoded
    if writeAddr + encoded.length < rom1.len then
      let rom2 := setByte rom1 (writeAddr + encoded.length) 0
      let rom3 := if writeAddr = origAddr ∧ needed < origSlot
        then zeroRange rom2 (writeAddr + needed) (origSlot - needed)
        else rom2
      .ok (rom3, r)
    else .error .noTerminatorSpace

/-- Python _write_string_and_update_pointer (lines 2165-2224), for one text
record r of the card at cardIndex; isName selects name or description (it
only feeds the error message). -/
def writeStringAndUpdatePointer (rom : Rom) (cardIndex : Nat) (r : TextRec)
    (isName : Bool) : Except WriteErr (Rom × TextRec) :=
  let encoded := encodeAscii r.text
  let needed := encoded.length + 1
  if needed ≤ r.slotSize ∧ r.addr < rom.len then
    finishTextWrite rom r r.addr r.addr r.slotSize needed encoded
  else
    match findFreeSpace rom needed with
    | none => .error (.noFreeSpace cardIndex needed isName)
    | some writeAddr =>
      let rom1 := zeroRange rom writeAddr needed
      let rom2 := if r.addr < rom1.len
        then zeroRange rom1 r.addr (min (r.addr + r.slotSize) rom1.len - r.addr)
        else rom1
      let r2 : TextRec := { r with addr := writeAddr, slotSize := needed }
      if writeAddr < TEXT_BASE ∨ TEXT_BASE + 4294967295 < writeAddr then
        .error .relPtrOutOfRange
      else
        let rom3 := writeBytes rom2 r.ptrOff (u32Bytes (writeAddr - TEXT_BASE))
        finishTextWrite rom3 r2 writeAddr r.addr r.slotSize needed encoded

/-! Declarative characterisation of the free-space scan, written from the
spec sentence: the claimed write address is one byte past the start of the
first run of zero bytes of length at least size inside the scan window. -/

/-- Every byte in [a, b) is zero. -/
def AllZero (rom : Rom) (a b : Nat) : Prop := ∀ i, a ≤ i → i < b → rom.data i = 0

/-- RunHeadW rom size start ed R: inside the scan window [start, ed), a run
of zero bytes of length at least size begins at R; begins means R is the
window start or the previous byte is not zero. -/
def RunHeadW (rom : Rom) (size start ed R : Nat) : Prop :=
  start ≤ R ∧ R + size ≤ ed ∧ AllZero rom R (R + size) ∧
    (R = start ∨ rom.data (R - 1) ≠ 0)

theorem allZero_extend (rom : Rom) (a b : Nat) (h : AllZero rom a b)
    (hb : rom.data b = 0) : AllZero rom a (b + 1) := by
  intro i h1 h2
  rcases Nat.lt_or_ge i b with h3 | h3
  · exact h i h1 h3
  · have : i = b := by omega
    rw [this]; exact hb

theorem allZero_single (rom : Rom) (a : Nat) (h : rom.data a = 0) :
    AllZero rom a (a + 1) := by
  intro i h1 h2
  have : i = a := by omega
  rw [this]; exact h

theorem ffsGo_succ_zero_none (rom : Rom) (size ed fuel addr rl : Nat)
    (hed : addr < ed) (h : rom.data addr = 0) :
    ffsGo rom size ed (fuel + 1) addr none rl =
      if size ≤ 1 then some (addr + 1)
      else ffsGo rom size ed fuel (addr + 1) (some addr) 1 := by
  simp [ffsGo, h, hed]

theorem ffsGo_succ_zero_some (rom : Rom) (size ed fuel addr r rl : Nat)
    (hed : addr < ed) (h : rom.data addr = 0) :
    ffsGo rom size ed (fuel + 1) addr (some r) rl =
      if size ≤ rl + 1 then some (r + 1)
      else ffsGo rom size ed fuel (addr + 1) (some r) (rl + 1) := by
  simp [ffsGo, h, hed]

theorem ffsGo_succ_nonzero (rom : Rom) (size ed fuel addr rl : Nat)
    (rs : Option Nat) (hed : addr < ed) (h : ¬ rom.data addr = 0) :
    ffsGo rom size ed (fuel + 1) addr rs rl =
      ffsGo rom size ed fuel (addr + 1) none 0 := by
  simp [ffsGo, h, hed]

theorem ffsGo_succ_exit (rom : Rom) (size ed fuel addr rl : Nat)
    (rs : Option Nat) (hed : ¬ addr < ed) :
    ffsGo rom size ed (fuel + 1) addr rs rl = none := by
  simp [ffsGo, hed]

/-- Loop invariant proof for the _find_free_space scan: on termination the
result is one past the least run head, or none exactly when no run head
exists in the window. -/
theorem ffsGo_characterization (rom : Rom) (size start ed : Nat) (hsize : 0 < size) :
    ∀ fuel addr rs rl,
      ed ≤ fuel + addr →
      start ≤ addr →
      (match rs with
       | some r => r + rl = addr ∧ 0 < rl ∧ rl < size ∧ start ≤ r ∧
           AllZero rom r addr ∧ (r = start ∨ rom.data (r - 1) ≠ 0)
       | none => rl = 0 ∧ (addr = start ∨ rom.data (addr - 1) ≠ 0)) →
      (∀ R, start ≤ R → AllZero rom R (R + size) →
        (R = start ∨ rom.data (R - 1) ≠ 0) → addr < R + size) →
      (match ffsGo rom size ed fuel addr rs rl with
       | some w => ∃ R, RunHeadW rom size start ed R ∧
           (∀ R2, RunHeadW rom size start ed R2 → R ≤ R2) ∧ w = R + 1
       | none => ∀ R, ¬ RunHeadW rom size start ed R) := by
  intro fuel
  induction fuel with
  | zero =>
    intro addr rs rl h1 h2 h3 h4
    simp only [ffsGo]
    intro R hR
    obtain ⟨ha, hb, hc, hd⟩ := hR
    have := h4 R ha hc hd
    omega
  | succ fuel ih =>
    intro addr rs rl h1 h2 h3 h4
    by_cases haddr : addr < ed
    case neg =>
      rw [ffsGo_succ_exit rom size ed fuel addr rl rs haddr]
      intro R hR
      obtain ⟨ha, hb, hc, hd⟩ := hR
      have := h4 R ha hc hd
      omega
    case pos =>
    by_cases h0 : rom.data addr = 0
    · cases rs with
      | none =>
        obtain ⟨hrl0, hbound⟩ := h3
        rw [ffsGo_succ_zero_none rom size ed fuel addr rl haddr h0]
        by_cases hs1 : size ≤ 1
        · rw [if_pos hs1]
          refine ⟨addr, ⟨h2, by omega, ?_, hbound⟩, ?_, rfl⟩
          · have : size = 1 := by omega
            rw [this]; exact allZero_single rom addr h0
          · intro R2 hR2
            obtain ⟨ha, hb, hc, hd⟩ := hR2
            have := h4 R2 ha hc hd
            omega
        · rw [if_neg hs1]
          refine ih (addr + 1) (some addr) 1 (by omega) (by omega) ?_ ?_
          · exact ⟨by omega, by omega, by omega, h2,
              allZero_single rom addr h0, hbound⟩
          · intro R ha hz hbd
            have hlt := h4 R ha hz hbd
            by_contra hcon
            have heq : R + size = addr + 1 := by omega
            have hRlt : R < addr := by omega
            have : rom.data (addr - 1) = 0 := hz (addr - 1) (by omega) (by omega)
            rcases hbound with hb1 | hb2
            · omega
            · exact hb2 this
      | some r =>
        obtain ⟨hsum, hrl, hrls, hrstart, hzr, hbd⟩ := h3
        rw [ffsGo_succ_zero_some rom size ed fuel addr r rl haddr h0]
        by_cases hs1 : size ≤ rl + 1
        · rw [if_pos hs1]
          have hsz : size = rl + 1 := by omega
          refine ⟨r, ⟨hrstart, by omega, ?_, hbd⟩, ?_, rfl⟩
          · have : r + size = addr + 1 := by omega
            rw [this]; exact allZero_extend rom r addr hzr h0
          · intro R2 hR2
            obtain ⟨ha, hb, hc, hd⟩ := hR2
            have := h4 R2 ha hc hd
            omega
        · rw [if_neg hs1]
          refine ih (addr + 1) (some r) (rl + 1) (by omega) (by omega) ?_ ?_
          · exact ⟨by omega, by omega, by omega, hrstart,
              allZero_extend rom r addr hzr h0, hbd⟩
          · intro R ha hz hbdR
            have hlt := h4 R ha hz hbdR
            by_contra hcon
            have heq : R + size = addr + 1 := by omega
            rcases Nat.lt_or_ge R r with hRr | hRr
            · have : rom.data (r - 1) = 0 := hz (r - 1) (by omega) (by omega)
              rcases hbd with hb1 | hb2
              · omega
              · exact hb2 this
            · omega
    · rw [ffsGo_succ_nonzero rom size ed fuel addr rl rs haddr h0]
      refine ih (addr + 1) none 0 (by omega) (by omega) ⟨rfl, Or.inr (by simpa using h0)⟩ ?_
      intro R ha hz hbd
      have hlt := h4 R ha hz hbd
      by_contra hcon
      have heq : R + size = addr + 1 := by omega
      have : rom.data addr = 0 := hz addr (by omega) (by omega)
      exact h0 this

/-- RunHead with the concrete window of _find_free_space. -/
def RunHead (rom : Rom) (size R : Nat) : Prop :=
  RunHeadW rom size TEXT_BASE (min TEXT_LIMIT rom.len) R

/-- Full characterisation of _find_free_space on success: the result is one
byte past the start of the first (least-address) zero run of length at least
size in the window. -/
theorem findFreeSpace_some_spec (rom : Rom) (size w : Nat) (hsize : 0 < size)
    (h : findFreeSpace rom size = some w) :
    ∃ R, RunHead rom size R ∧ (∀ R2, RunHead rom size R2 → R ≤ R2) ∧ w = R + 1 := by
  have hdef : findFreeSpace rom size =
      ffsGo rom size (min TEXT_LIMIT rom.len) TEXT_LIMIT TEXT_BASE none 0 := by
    simp only [findFreeSpace]
    exact if_neg (by omega)
  have hg := ffsGo_characterization rom size TEXT_BASE (min TEXT_LIMIT rom.len) hsize
    TEXT_LIMIT TEXT_BASE none 0 (by omega) (by omega) ⟨rfl, Or.inl rfl⟩
    (fun R ha hz hbd => by omega)
  rw [← hdef, h] at hg
  exact hg

/-- Characterisation of _find_free_space on failure: no zero run of length
at least size exists in the window. -/
theorem findFreeSpace_none_spec (rom : Rom) (size : Nat) (hsize : 0 < size)
    (h : findFreeSpace rom size = none) :
    ∀ R, ¬ RunHead rom size R := by
  have hdef : findFreeSpace rom size =
      ffsGo rom size (min TEXT_LIMIT rom.len) TEXT_LIMIT TEXT_BASE none 0 := by
    simp only [findFreeSpace]
    exact if_neg (by omega)
  have hg := ffsGo_characterization rom size TEXT_BASE (min TEXT_LIMIT rom.len) hsize
    TEXT_LIMIT TEXT_BASE none 0 (by omega) (by omega) ⟨rfl, Or.inl rfl⟩
    (fun R ha hz hbd => by omega)
  rw [← hdef, h] at hg
  exact hg

/-- Bounds of a successful scan result, used by several theorems below. -/
theorem findFreeSpace_bounds (rom : Rom) (size w : Nat) (hsize : 0 < size)
    (h : findFreeSpace rom size = some w) :
    TEXT_BASE + 1 ≤ w ∧ w + size ≤ min TEXT_LIMIT rom.len + 1 := by
  obtain ⟨R, ⟨ha, hb, _, _⟩, _, hw⟩ := findFreeSpace_some_spec rom size w hsize h
  omega

/-- Postcondition of the common epilogue finishTextWrite on success: the
record is returned unchanged, the image length is unchanged, the write was
in bounds, and the bytes of the result are described pointwise (later
writes of the code win over earlier ones). -/
theorem finishTextWrite_spec (rom : Rom) (r : TextRec)
    (writeAddr origAddr origSlot needed : Nat) (enc : List Nat)
    (rom2 : Rom) (r2 : TextRec)
    (h : finishTextWrite rom r writeAddr origAddr origSlot needed enc = .ok (rom2, r2)) :
    r2 = r ∧ rom2.len = rom.len ∧ writeAddr + needed ≤ rom.len ∧
    ∀ p, rom2.data p =
      if writeAddr = origAddr ∧ needed < origSlot ∧ writeAddr + needed ≤ p ∧
          p < writeAddr + origSlot ∧ p < rom.len then 0
      else if p = writeAddr + enc.length then 0
      else if writeAddr ≤ p ∧ p < writeAddr + enc.length then enc.getD (p - writeAddr) 0
      else rom.data p := by
  simp only [finishTextWrite, writeBytes_len] at h
  by_cases h1 : rom.len < writeAddr + needed
  · rw [if_pos h1] at h
    exact absurd h (by simp)
  rw [if_neg h1] at h
  by_cases h2 : writeAddr + enc.length < rom.len
  · rw [if_pos h2] at h
    by_cases h3 : writeAddr = origAddr ∧ needed < origSlot
    · rw [if_pos h3] at h
      simp only [Except.ok.injEq, Prod.mk.injEq] at h
      obtain ⟨hrom, hr⟩ := h
      refine ⟨hr.symm, ?_, by omega, ?_⟩
      · rw [← hrom, zeroRange_len, setByte_len, writeBytes_len]
      · intro p
        rw [← hrom]
        rw [zeroRange_data]
        simp only [setByte_len, writeBytes_len, setByte_data, writeBytes_data]
        split_ifs <;> omega
    · rw [if_neg h3] at h
      simp only [Except.ok.injEq, Prod.mk.injEq] at h
      obtain ⟨hrom, hr⟩ := h
      refine ⟨hr.symm, ?_, by omega, ?_⟩
      · rw [← hrom, setByte_len, writeBytes_len]
      · intro p
        rw [← hrom]
        simp only [setByte_data, writeBytes_data]
        split_ifs <;> omega
  · rw [if_neg h2] at h
    exact absurd h (by simp)

/-- Postcondition of _write_string_and_update_pointer on the in-place
branch: the record is unchanged (in particular its address), the written
text and terminator land inside the slot, the tail of a shorter write is
zeroed, and no byte outside the slot changes. -/
theorem writeString_inPlace_spec (rom : Rom) (cardIndex : Nat) (r : TextRec)
    (isName : Bool) (rom2 : Rom) (r2 : TextRec)
    (hfit : (encodeAscii r.text).length + 1 ≤ r.slotSize)
    (haddr : r.addr < rom.len)
    (h : writeStringAndUpdatePointer rom cardIndex r isName = .ok (rom2, r2)) :
    r2 = r ∧ rom2.len = rom.len ∧
    r.addr + (encodeAscii r.text).length + 1 ≤ rom.len ∧
    (∀ i, i < (encodeAscii r.text).length →
      rom2.data (r.addr + i) = (encodeAscii r.text).getD i 0) ∧
    rom2.data (r.addr + (encodeAscii r.text).length) = 0 ∧
    (∀ p, (encodeAscii r.text).length + 1 < r.slotSize →
      r.addr + (encodeAscii r.text).length + 1 ≤ p → p < r.addr + r.slotSize →
      p < rom.len → rom2.data p = 0) ∧
    (∀ p, p < r.addr ∨ r.addr + r.slotSize ≤ p → rom2.data p = rom.data p) := by
  simp only [writeStringAndUpdatePointer] at h
  rw [if_pos ⟨hfit, haddr⟩] at h
  obtain ⟨hr, hlen, hbound, hdata⟩ := finishTextWrite_spec rom r r.addr r.addr
    r.slotSize ((encodeAscii r.text).length + 1) (encodeAscii r.text) rom2 r2 h
  refine ⟨hr, hlen, by omega, ?_, ?_, ?_, ?_⟩
  · intro i hi
    rw [hdata (r.addr + i)]
    rw [if_neg (by omega), if_neg (by omega), if_pos (by omega)]
    congr 1
    omega
  · rw [hdata (r.addr + (encodeAscii r.text).length)]
    rw [if_neg (by omega), if_pos (by omega)]
  · intro p htail h1 h2 h3
    rw [hdata p]
    rw [if_pos (by omega)]
  · intro p hp
    rw [hdata p]
    rw [if_neg (by omega), if_neg (by omega), if_neg (by omega)]

/-- Reading back a 4-byte little-endian cell written with to_bytes gives the
value back. -/
theorem readU32_u32Bytes (rom : Rom) (off v : Nat) (hv : v < 4294967296) :
    readU32 (writeBytes rom off (u32Bytes v)) off = v := by
  have hlen : (u32Bytes v).length = 4 := rfl
  simp only [readU32, writeBytes_data, hlen]
  rw [if_pos (by omega), if_pos (by omega), if_pos (by omega), if_pos (by omega)]
  have e0 : off - off = 0 := by omega
  have e1 : off + 1 - off = 1 := by omega
  have e2 : off + 2 - off = 2 := by omega
  have e3 : off + 3 - off = 3 := by omega
  rw [e0, e1, e2, e3]
  show v % 256 + 256 * (v / 256 % 256) + 65536 * (v / 65536 % 256) +
    16777216 * (v / 16777216 % 256) = v
  omega

/-- Elementwise description of u32Bytes, stated over a variable so that the
kernel never has to reduce these on compound arguments. -/
theorem u32Bytes_getD_zero (v : Nat) : (u32Bytes v).getD 0 0 = v % 256 := rfl

theorem u32Bytes_getD_one (v : Nat) : (u32Bytes v).getD 1 0 = v / 256 % 256 := rfl

theorem u32Bytes_getD_two (v : Nat) : (u32Bytes v).getD 2 0 = v / 65536 % 256 := rfl

theorem u32Bytes_getD_three (v : Nat) :
    (u32Bytes v).getD 3 0 = v / 16777216 % 256 := rfl

/-- Recomposition of a 32-bit value from its four little-endian bytes. -/
theorem readU32_of_bytes (rom : Rom) (off v : Nat) (hv : v < 4294967296)
    (h0 : rom.data off = v % 256) (h1 : rom.data (off + 1) = v / 256 % 256)
    (h2 : rom.data (off + 2) = v / 65536 % 256)
    (h3 : rom.data (off + 3) = v / 16777216 % 256) :
    readU32 rom off = v := by
  simp only [readU32, h0, h1, h2, h3]
  omega

/-- Postcondition of _write_string_and_update_pointer on the relocation
branch: the new address is the scan result, the record's address and slot
are updated, the text and terminator are written at the new address, every
byte of the old slot outside the claimed span and the pointer cell is zero,
and the pointer cell now holds new_address - TEXT_BASE. -/
theorem writeString_reloc_spec (rom : Rom) (cardIndex : Nat) (r : TextRec)
    (isName : Bool) (rom2 : Rom) (r2 : TextRec)
    (hip : ¬((encodeAscii r.text).length + 1 ≤ r.slotSize ∧ r.addr < rom.len))
    (h : writeStringAndUpdatePointer rom cardIndex r isName = .ok (rom2, r2)) :
    ∃ w, findFreeSpace rom ((encodeAscii r.text).length + 1) = some w ∧
      r2.text = r.text ∧ r2.ptrOff = r.ptrOff ∧
      r2.addr = w ∧ r2.slotSize = (encodeAscii r.text).length + 1 ∧
      rom2.len = rom.len ∧ w + (encodeAscii r.text).length + 1 ≤ rom.len ∧
      TEXT_BASE + 1 ≤ w ∧
      (∀ i, i < (encodeAscii r.text).length →
        rom2.data (w + i) = (encodeAscii r.text).getD i 0) ∧
      rom2.data (w + (encodeAscii r.text).length) = 0 ∧
      (∀ p, r.addr ≤ p → p < r.addr + r.slotSize → p < rom.len →
        ¬(w ≤ p ∧ p < w + ((encodeAscii r.text).length + 1)) →
        ¬(r.ptrOff ≤ p ∧ p < r.ptrOff + 4) → rom2.data p = 0) ∧
      (r.ptrOff + 4 ≤ TEXT_BASE → readU32 rom2 r.ptrOff = w - TEXT_BASE) := by
  have hlim : TEXT_LIMIT ≤ TEXT_BASE + 4294967295 := by decide
  simp only [writeStringAndUpdatePointer, zeroRange_len] at h
  rw [if_neg hip] at h
  cases hfind : findFreeSpace rom ((encodeAscii r.text).length + 1) with
  | none =>
    simp only [hfind] at h
    exact absurd h (by simp)
  | some w =>
    simp only [hfind] at h
    obtain ⟨hw1, hw2⟩ := findFreeSpace_bounds rom ((encodeAscii r.text).length + 1) w
      (by omega) hfind
    have hwlim : w ≤ TEXT_LIMIT := by omega
    rw [if_neg (by omega)] at h
    have hu4 : (u32Bytes (w - TEXT_BASE)).length = 4 := rfl
    by_cases ha : r.addr < rom.len
    · rw [if_pos ha] at h
      obtain ⟨hr, hlen, hbound, hdata⟩ := finishTextWrite_spec _ _ _ _ _ _ _ _ _ h
      rw [writeBytes_len, zeroRange_len, zeroRange_len] at hbound
      rw [writeBytes_len, zeroRange_len, zeroRange_len] at hlen
      refine ⟨w, rfl, by rw [hr], by rw [hr], by rw [hr], by rw [hr], hlen,
        by omega, by omega, ?_, ?_, ?_, ?_⟩
      · intro i hi
        rw [hdata (w + i)]
        rw [if_neg (by omega), if_neg (by omega), if_pos (by omega)]
        congr 1
        omega
      · rw [hdata (w + (encodeAscii r.text).length)]
        rw [if_neg (by omega), if_pos (by omega)]
      · intro p hp1 hp2 hp3 hp4 hp5
        rw [hdata p]
        rw [if_neg (by omega), if_neg (by omega), if_neg (by omega)]
        rw [writeBytes_data, hu4]
        rw [if_neg (by omega)]
        rw [zeroRange_data, zeroRange_len]
        rw [if_pos (by omega)]
      · intro hptr
        have hcell : ∀ k, k < 4 → rom2.data (r.ptrOff + k) =
            (u32Bytes (w - TEXT_BASE)).getD k 0 := by
          intro k hk
          rw [hdata (r.ptrOff + k)]
          rw [if_neg (by omega), if_neg (by omega), if_neg (by omega)]
          rw [writeBytes_data, hu4]
          rw [if_pos (by omega)]
          congr 1
          omega
        have h0 := hcell 0 (by omega)
        have h1 := hcell 1 (by omega)
        have h2 := hcell 2 (by omega)
        have h3 := hcell 3 (by omega)
        rw [Nat.add_zero, u32Bytes_getD_zero] at h0
        rw [u32Bytes_getD_one] at h1
        rw [u32Bytes_getD_two] at h2
        rw [u32Bytes_getD_three] at h3
        exact readU32_of_bytes rom2 r.ptrOff (w - TEXT_BASE) (by omega) h0 h1 h2 h3
    · rw [if_neg ha] at h
      obtain ⟨hr, hlen, hbound, hdata⟩ := finishTextWrite_spec _ _ _ _ _ _ _ _ _ h
      rw [writeBytes_len, zeroRange_len] at hbound
      rw [writeBytes_len, zeroRange_len] at hlen
      refine ⟨w, rfl, by rw [hr], by rw [hr], by rw [hr], by rw [hr], hlen,
        by omega, by omega, ?_, ?_, ?_, ?_⟩
      · intro i hi
        rw [hdata (w + i)]
        rw [if_neg (by omega), if_neg (by omega), if_pos (by omega)]
        congr 1
        omega
      · rw [hdata (w + (encodeAscii r.text).length)]
        rw [if_neg (by omega), if_pos (by omega)]
      · intro p hp1 hp2 hp3 hp4 hp5
        omega
      · intro hptr
        have hcell : ∀ k, k < 4 → rom2.data (r.ptrOff + k) =
            (u32Bytes (w - TEXT_BASE)).getD k 0 := by
          intro k hk
          rw [hdata (r.ptrOff + k)]
          rw [if_neg (by omega), if_neg (by omega), if_neg (by omega)]
          rw [writeBytes_data, hu4]
          rw [if_pos (by omega)]
          congr 1
          omega
        have h0 := hcell 0 (by omega)
        have h1 := hcell 1 (by omega)
        have h2 := hcell 2 (by omega)
        have h3 := hcell 3 (by omega)
        rw [Nat.add_zero, u32Bytes_getD_zero] at h0
        rw [u32Bytes_getD_one] at h1
        rw [u32Bytes_getD_two] at h2
        rw [u32Bytes_getD_three] at h3
        exact readU32_of_bytes rom2 r.ptrOff (w - TEXT_BASE) (by omega) h0 h1 h2 h3

/-! The 0xFF blob arena, _find_free_space_ff (main.py lines 1908-1934), used
by the deck and pack stores. -/

/-- Python all(b == 0xFF for b in rom_data[a:a+n]) for an in-bounds window. -/
def allFF (rom : Rom) (a : Nat) : Nat → Bool
  | 0 => true
  | n + 1 => (rom.data a == 255) && allFF rom (a + 1) n

/-- Loop of _find_free_space_ff: test each aligned candidate window; the
fuel argument only bounds the iteration count, the loop exit is the
addr + size <= end guard. -/
def ffGo (rom : Rom) (size alignment : Nat) : Nat → Nat → Option Nat
  | 0, _ => none
  | fuel + 1, addr =>
    if addr + size ≤ rom.len then
      if 0 < size ∧ allFF rom addr size then some addr
      else ffGo rom size alignment fuel (addr + alignment)
    else none

/-- Python _find_free_space_ff(rom_data, size, alignment): find a run of
0xFF bytes of at least size starting at an aligned offset at or after
FREE_SPACE_START.  All call sites pass alignment = 4. -/
def findFreeSpaceFF (rom : Rom) (size alignment : Nat) : Option Nat :=
  if size = 0 then none
  else
    let alignment := if alignment = 0 then 1 else alignment
    let addr := if FREE_SPACE_START % alignment ≠ 0
      then FREE_SPACE_START + (alignment - FREE_SPACE_START % alignment)
      else FREE_SPACE_START
    ffGo rom size alignment rom.len addr

theorem allFF_spec (rom : Rom) (a n : Nat) (h : allFF rom a n = true) :
    ∀ i, i < n → rom.data (a + i) = 255 := by
  induction n generalizing a with
  | zero => intro i hi; omega
  | succ n ih =>
    rw [allFF, Bool.and_eq_true, beq_iff_eq] at h
    intro i hi
    cases i with
    | zero => rw [Nat.add_zero]; exact h.1
    | succ i =>
      have := ih (a + 1) h.2 i (by omega)
      have harr : a + 1 + i = a + (i + 1) := by omega
      rw [harr] at this
      exact this

theorem ffGo_sound (rom : Rom) (size alignment : Nat) :
    ∀ fuel addr w, ffGo rom size alignment fuel addr = some w →
      (∃ k, w = addr + k * alignment) ∧ w + size ≤ rom.len ∧
        allFF rom w size = true := by
  intro fuel
  induction fuel with
  | zero => intro addr w h; exact absurd h (by simp [ffGo])
  | succ fuel ih =>
    intro addr w h
    rw [ffGo] at h
    by_cases h1 : addr + size ≤ rom.len
    · rw [if_pos h1] at h
      by_cases h2 : 0 < size ∧ allFF rom addr size
      · rw [if_pos h2] at h
        have hw : w = addr := by
          have := h
          simp only [Option.some.injEq] at this
          exact this.symm
        subst hw
        exact ⟨⟨0, by omega⟩, h1, h2.2⟩
      · rw [if_neg h2] at h
        obtain ⟨⟨k, hk⟩, hb, hz⟩ := ih (addr + alignment) w h
        refine ⟨⟨k + 1, ?_⟩, hb, hz⟩
        rw [hk]
        ring
    · rw [if_neg h1] at h
      exact absurd h (by simp)

/-- Soundness of _find_free_space_ff at the call-site alignment 4: the
result is 4-byte aligned, in bounds, and its whole window was entirely
0xFF. -/
theorem findFreeSpaceFF_sound (rom : Rom) (size w : Nat)
    (h : findFreeSpaceFF rom size 4 = some w) :
    w % 4 = 0 ∧ FREE_SPACE_START ≤ w ∧ w + size ≤ rom.len ∧
      ∀ i, i < size → rom.data (w + i) = 255 := by
  by_cases hs : size = 0
  · rw [hs] at h
    exact absurd h (by simp [findFreeSpaceFF])
  · have hdef : findFreeSpaceFF rom size 4 =
        ffGo rom size 4 rom.len FREE_SPACE_START := by
      simp only [findFreeSpaceFF]
      rw [if_neg hs]
      norm_num [FREE_SPACE_START]
    rw [hdef] at h
    obtain ⟨⟨k, hk⟩, hb, hz⟩ := ffGo_sound rom size 4 rom.len FREE_SPACE_START w h
    refine ⟨?_, by omega, hb, allFF_spec rom w size hz⟩
    have hfss : FREE_SPACE_START % 4 = 0 := by norm_num [FREE_SPACE_START]
    omega

/-! Deck and pack stores (main.py _encode_deck_structure, _write_deck_to_rom,
_encode_pack_contents, _write_pack_to_rom). -/

def DECK_PTR_TABLE_BASE : Nat := 0x1E63BEC

def NUM_DECKS : Nat := 215

def PACK_TABLE_BASE : Nat := 0x1E5E2E8

def PACK_ENTRY_SIZE : Nat := 0x10

def NUM_PACKS : Nat := 45

def ARTWORK_TABLE_BASE : Nat := 0x15B5C00

/-- Bytes of int(val & 0xFFFF).to_bytes(2, "little"). -/
def u16Bytes (v : Nat) : List Nat := [v % 65536 % 256, v % 65536 / 256]

/-- In-memory deck record (class DeckEntry). -/
structure DeckEntry where
  index : Nat
  ptrOff : Nat
  structOff : Nat
  unk : List Nat
  mainCards : List Nat
  extraCards : List Nat
  originalSize : Nat
deriving DecidableEq

/-- Python _encode_deck_structure: unk0..unk3, main count, main cards, extra
count, extra cards, 0x0000 terminator, all little-endian u16. -/
def encodeDeckStructure (d : DeckEntry) : List Nat :=
  (d.unk.map u16Bytes).flatten ++ u16Bytes d.mainCards.length ++
    (d.mainCards.map u16Bytes).flatten ++ u16Bytes d.extraCards.length ++
    (d.extraCards.map u16Bytes).flatten ++ [0, 0]

/-- Python _write_deck_to_rom: write in place when the encoding fits, else
repoint to a fresh 0xFF window; on allocation failure the function shows an
error dialog and returns with the image unchanged. -/
def writeDeckToRom (rom : Rom) (d : DeckEntry) : Rom × DeckEntry :=
  let blob := encodeDeckStructure d
  let newSize := blob.length
  if newSize ≤ d.originalSize then
    let rom1 := writeBytes rom d.structOff blob
    let rom2 := if newSize < d.originalSize
      then fillFF rom1 (d.structOff + newSize) (d.originalSize - newSize)
      else rom1
    (rom2, d)
  else
    match findFreeSpaceFF rom newSize 4 with
    | none => (rom, d)
    | some newOff =>
      let rom1 := fillFF rom d.structOff d.originalSize
      let rom2 := writeBytes rom1 newOff blob
      let rom3 := writeU32 rom2 d.ptrOff (newOff + GBA_ROM_BASE)
      (rom3, { d with structOff := newOff, originalSize := newSize })

/-- In-memory pack record (class PackEntry); contentsOff is -1 when the
parsed pointer was invalid, as in the Python code. -/
structure PackEntry where
  index : Nat
  structOff : Nat
  ptrOff : Nat
  cost : Nat
  cardsPerPack : Nat
  cardAmount : Nat
  unk0 : Nat
  unk1 : Nat
  padding : Nat
  contentsOff : Int
  contents : List (Nat × Nat)
  originalContentsSize : Nat
deriving DecidableEq

/-- Python _encode_pack_contents: cardAmount entries of (konami id, rarity),
padding missing entries with (0, 0). -/
def encodePackContents (p : PackEntry) : List Nat :=
  ((List.range p.cardAmount).map (fun i =>
    let kr := p.contents.getD i (0, 0)
    u16Bytes kr.1 ++ u16Bytes kr.2)).flatten

/-- Header part of _write_pack_to_rom: the six u16 fields at the pack
struct. -/
def writePackHeader (rom : Rom) (p : PackEntry) : Rom :=
  let off := p.structOff
  writeU16 (writeU16 (writeU16 (writeU16 (writeU16 (writeU16 rom
    off (p.cost % 65536)) (off + 2) (p.cardsPerPack % 65536))
    (off + 4) (p.cardAmount % 65536)) (off + 6) (p.unk0 % 65536))
    (off + 8) (p.unk1 % 65536)) (off + 10) (p.padding % 65536)

/-- Python _write_pack_to_rom: write the fixed header, then the contents
blob, repointing to a fresh 0xFF window when it grew (or when the stored
contents offset is invalid). -/
def writePackToRom (rom : Rom) (p : PackEntry) : Rom × PackEntry :=
  let rom0 := writePackHeader rom p
  let contentsBlob := encodePackContents p
  let newSize := contentsBlob.length
  let needNewSpace := p.contentsOff < 0 ∨ p.originalContentsSize < newSize
  if ¬ needNewSpace then
    let writeOff := p.contentsOff.toNat
    let rom1 := writeBytes rom0 writeOff contentsBlob
    let rom2 := if 0 < p.originalContentsSize - newSize
      then fillFF rom1 (writeOff + newSize) (p.originalContentsSize - newSize)
      else rom1
    (rom2, p)
  else
    match findFreeSpaceFF rom0 newSize 4 with
    | none => (rom0, p)
    | some newOff =>
      let rom1 := if 0 ≤ p.contentsOff ∧ 0 < p.originalContentsSize
        then fillFF rom0 p.contentsOff.toNat p.originalContentsSize
        else rom0
      let rom2 := writeBytes rom1 newOff contentsBlob
      let rom3 := writeU32 rom2 p.ptrOff (newOff + GBA_ROM_BASE)
      (rom3, { p with contentsOff := (newOff : Int), originalContentsSize := newSize })

/-! Password codec.  Writing (_write_password_and_price lines 2531-2546)
formats the password as f"{pw:08d}", packs two decimal digits per byte, and
stores the four bytes reversed; reading (_parse_cards lines 1992-2005)
reverses the bytes, takes the nibbles as digits clamping non-decimal
nibbles to 0, and parses the digit string as an integer. -/

/-- Digit values of f"{pw:08d}" for pw below 10^8 (the eight characters the
packing loop consumes). -/
def pwText (pw : Nat) : List Nat :=
  [pw / 10000000 % 10, pw / 1000000 % 10, pw / 100000 % 10, pw / 10000 % 10,
   pw / 1000 % 10, pw / 100 % 10, pw / 10 % 10, pw % 10]

/-- Python password encoding: four bytes (hi << 4) | lo over consecutive
digit pairs, then reversed before the ROM write. -/
def encodePassword (pw : Nat) : List Nat :=
  let t := pwText pw
  [t.getD 0 0 <<< 4 ||| t.getD 1 0,
   t.getD 2 0 <<< 4 ||| t.getD 3 0,
   t.getD 4 0 <<< 4 ||| t.getD 5 0,
   t.getD 6 0 <<< 4 ||| t.getD 7 0].reverse

/-- Python password decoding from the four stored bytes: reverse, split each
byte into nibbles clamping values above 9 to 0, and parse the eight-digit
string as an integer. -/
def decodePassword (bs : List Nat) : Nat :=
  let rs := bs.reverse
  let digits := (rs.map (fun b =>
    [if (b >>> 4) &&& 15 ≤ 9 then (b >>> 4) &&& 15 else 0,
     if b &&& 15 ≤ 9 then b &&& 15 else 0])).flatten
  digits.foldl (fun acc d => acc * 10 + d) 0

/-! The Konami-identifier table (_read_card_id_index_from_table, lines
1944-1955). -/

/-- Python _read_card_id_index_from_table: resolve a Konami identifier to a
card name index or the 0xFFFF sentinel. -/
def readCardIdIndexFromTable (rom : Rom) (konamiId : Nat) : Nat :=
  if konamiId < KONAMI_ID_BASE then 0
  else
    let pos := konamiId - KONAMI_ID_BASE
    let offset := CARD_ID_TABLE_BASE + pos * 2
    if rom.len < offset + 2 then 0
    else readU16 rom offset

/-- Python _write_card_id_entry. -/
def writeCardIdEntry (rom : Rom) (konamiId cardIdIndex : Nat) : Rom :=
  if konamiId < KONAMI_ID_BASE then rom
  else
    let pos := konamiId - KONAMI_ID_BASE
    let offset := CARD_ID_TABLE_BASE + pos * 2
    if rom.len < offset + 2 then rom
    else writeU16 rom offset cardIdIndex

/-! Text parsing (_read_c_string, lines 1885-1898, and the name pointer part
of _parse_cards, lines 1963-1966). -/

inductive LoadErr where
  | stringAddrOutOfRange
  | indexOutOfRange (idx : Nat)
deriving DecidableEq

/-- Scan loop of _read_c_string collecting bytes until a zero byte or the
end limit; the fuel argument only bounds the iteration count. -/
def readCStringBytes (rom : Rom) (endLimit : Nat) : Nat → Nat → List Nat
  | 0, _ => []
  | fuel + 1, pos =>
    if pos < endLimit then
      if rom.data pos = 0 then []
      else rom.data pos :: readCStringBytes rom endLimit fuel (pos + 1)
    else []

/-- Python bytes(out).decode("ascii", errors="replace"): bytes above 0x7F
become U+FFFD. -/
def decodeAsciiReplace (bs : List Nat) : List Nat :=
  bs.map fun b => if b ≤ 127 then b else 0xFFFD

/-- Python _read_c_string(data, addr): fails when addr is outside the image,
otherwise reads up to min(TEXT_LIMIT, len) and returns the decoded string
together with the byte length read. -/
def readCString (rom : Rom) (addr : Nat) : Except LoadErr (List Nat × Nat) :=
  if rom.len ≤ addr then .error .stringAddrOutOfRange
  else
    let endLimit := min TEXT_LIMIT rom.len
    let bytes := readCStringBytes rom endLimit TEXT_LIMIT addr
    .ok (decodeAsciiReplace bytes, bytes.length)

/-- Name-record part of one _parse_cards iteration (lines 1963-1966 plus the
CardEntry fields built from them): relative pointer, address, text read, and
slot size = length + 1. -/
def parseCardNameRec (rom : Rom) (i : Nat) : Except LoadErr TextRec :=
  let namePtrOff := CARD_NAME_PTR_BASE + i * 4
  let nameRel := readU32 rom namePtrOff
  let nameAddr := TEXT_BASE + nameRel
  match readCString rom nameAddr with
  | .error e => .error e
  | .ok (s, len) =>
    .ok { text := s, addr := nameAddr, slotSize := len + 1, ptrOff := namePtrOff }

/-! In-memory card and artwork records and the per-record save-time writes
(_write_stats_primary, _write_stats_secondary, _write_password_and_price,
_write_artwork_table, _write_name_sort_table, _apply_all_changes_to_rom,
save_rom_as). -/

/-- Class CardEntry: the name and description text records plus the fixed
stat fields, password, price, and the optional secondary stat row. -/
structure CardEntry where
  index : Nat
  name : TextRec
  desc : TextRec
  konamiId : Nat
  cardIdIndex : Nat
  artworkId : Nat
  editedFlag : Nat
  atk : Nat
  deff : Nat
  level : Nat
  race : Nat
  attrib : Nat
  typeId : Nat
  stRace : Nat
  padding : Nat
  password : Nat
  price : Nat
  secondStatsIndex : Int
  konami2 : Nat
  cardIdIndex2 : Nat
  artwork2 : Nat
  editedFlag2 : Nat
  atk2 : Nat
  deff2 : Nat
  level2 : Nat
  race2 : Nat
  attrib2 : Nat
  type2 : Nat
  stRace2 : Nat
  padding2 : Nat
deriving DecidableEq

/-- Class ArtworkEntry. -/
structure ArtworkEntry where
  index : Nat
  unkHalfword : Nat
  cardNameIndex : Nat
deriving DecidableEq

/-- Python _write_stats_primary (raises when the struct extends past the
image). -/
def writeStatsPrimary (rom : Rom) (c : CardEntry) : Except WriteErr Rom :=
  let off := CARD_STATS_BASE + c.index * CARD_STATS_SIZE
  if rom.len < off + CARD_STATS_SIZE then .error (.statsOutOfRange c.index)
  else .ok (writeU16 (writeU16 (writeU16 (writeU16 (writeU16 (writeU16 (writeU16
    (writeU16 (writeU16 (writeU16 (writeU16 rom off c.konamiId)
    (off + 0x2) c.artworkId) (off + 0x4) c.editedFlag) (off + 0x6) c.atk)
    (off + 0x8) c.deff) (off + 0xA) c.level) (off + 0xC) c.race)
    (off + 0xE) c.attrib) (off + 0x10) c.typeId) (off + 0x12) c.stRace)
    (off + 0x14) c.padding)

/-- Python _write_stats_secondary (silent no-op when there is no secondary
row or it extends past the image). -/
def writeStatsSecondary (rom : Rom) (c : CardEntry) : Rom :=
  if c.secondStatsIndex < 0 then rom
  else
    let off := SECOND_CARD_STATS_BASE +
      c.secondStatsIndex.toNat * SECOND_CARD_STATS_SIZE
    if rom.len < off + SECOND_CARD_STATS_SIZE then rom
    else writeU16 (writeU16 (writeU16 (writeU16 (writeU16 (writeU16 (writeU16
      (writeU16 (writeU16 (writeU16 (writeU16 rom off c.konami2)
      (off + 0x2) c.artwork2) (off + 0x4) c.editedFlag2) (off + 0x6) c.atk2)
      (off + 0x8) c.deff2) (off + 0xA) c.level2) (off + 0xC) c.race2)
      (off + 0xE) c.attrib2) (off + 0x10) c.type2) (off + 0x12) c.stRace2)
      (off + 0x14) c.padding2

/-- Python _write_password_and_price; the price is written twice by the
source, byte-identically.  encodePassword embeds the f-string digits, which
is exact for passwords below 10^8. -/
def writePasswordAndPrice (rom : Rom) (c : CardEntry) : Rom :=
  let pwOff := PASSWORD_TABLE_BASE + c.index * PASSWORD_ENTRY_SIZE
  let rom1 := writeBytes rom pwOff (encodePassword c.password)
  let priceOff := PRICE_TABLE_BASE + c.index * PRICE_ENTRY_SIZE
  let rom2 := if priceOff + 4 ≤ rom1.len
    then writeBytes rom1 priceOff (u32Bytes (c.price % 4294967296))
    else rom1
  if priceOff + 4 ≤ rom2.len
    then writeBytes rom2 priceOff (u32Bytes (c.price % 4294967296))
    else rom2

/-- Python _write_artwork_table loop; the break on an out-of-range slot
stops the whole loop. -/
def writeArtworkGo (rom : Rom) : List ArtworkEntry → Rom
  | [] => rom
  | e :: es =>
    let off := ARTWORK_TABLE_BASE + e.index * 4
    if rom.len < off + 4 then rom
    else
      let rom1 := writeU16 rom off (e.unkHalfword % 65536)
      let idx := e.cardNameIndex
      let v := if idx = 0xFFFF then 0xFFFF
        else if idx < NUM_CARD_GFX then idx else 0xFFFF
      writeArtworkGo (writeU16 rom1 (off + 2) v) es

/-- Python _write_artwork_table. -/
def writeArtworkTable (rom : Rom) (artworks : List ArtworkEntry) : Rom :=
  writeArtworkGo rom artworks

/-! The alphabetical name sort table, _write_name_sort_table (lines
366-429). -/

/-- Stable insertion into a sorted list: the new element goes before any
element it does not strictly follow, so elements with equal keys keep their
original order. -/
def insertStable (le : α → α → Bool) (x : α) : List α → List α
  | [] => [x]
  | y :: ys =>
    if le y x && !(le x y) then y :: insertStable le x ys else x :: y :: ys

/-- Stable sort used to model Python list.sort, which is stable; a stable
sort under the same total preorder produces the same list, so this
structural insertion sort computes exactly what included.sort(key=...)
computes. -/
def sortStable (le : α → α → Bool) : List α → List α
  | [] => []
  | x :: xs => insertStable le x (sortStable le xs)

/-- Python string comparison on code points (less-or-equal, as the sort
key). -/
def lexLe : List Nat → List Nat → Bool
  | [], _ => true
  | _ :: _, [] => false
  | a :: as, b :: bs => if a < b then true else if a = b then lexLe as bs else false

/-- Rank assignment loop: a new rank for each name different from the
previous one in the sorted list (same name means same rank). -/
def buildRanksGo : List (List Nat × Nat) → Option (List Nat) → Nat →
    List (List Nat × Nat)
  | [], _, _ => []
  | (name, _) :: rest, lastName, rank =>
    if some name ≠ lastName then
      (name, rank) :: buildRanksGo rest (some name) (rank + 1)
    else buildRanksGo rest lastName rank

def buildRanks (l : List (List Nat × Nat)) : List (List Nat × Nat) :=
  buildRanksGo l none 0

/-- Python name_to_rank.get(name, 0). -/
def lookupRank (ranks : List (List Nat × Nat)) (name : List Nat) : Nat :=
  match ranks.find? (fun p => p.1 == name) with
  | some p => p.2
  | none => 0

/-- Write loop over enumerate(self.cards[1:]): skip the excluded slice
range, write rank + 1 at NAME_SORT_TABLE_BASE + i * 2, break when the slot
leaves the image. -/
def writeSortGo (rom : Rom) (ranks : List (List Nat × Nat)) :
    List (Nat × CardEntry) → Rom
  | [] => rom
  | (i, card) :: rest =>
    if NAME_SORT_EXCLUDE_START ≤ i ∧ i ≤ NAME_SORT_EXCLUDE_END then
      writeSortGo rom ranks rest
    else
      let rank := lookupRank ranks card.name.text
      let sortValue := rank + 1
      let off := NAME_SORT_TABLE_BASE + i * 2
      if rom.len < off + 2 then rom
      else writeSortGo (writeU16 rom off sortValue) ranks rest

/-- Python _write_name_sort_table: build (name, slice index) pairs over
enumerate(self.cards[1:]) minus the excluded range, sort them stably by
name, assign dense ranks, and write rank + 1 for each pair at
NAME_SORT_TABLE_BASE + i * 2 where i is the slice index. -/
def writeNameSortTable (rom : Rom) (cards : List CardEntry) : Rom :=
  if cards.isEmpty then rom
  else
    let included := ((cards.drop 1).enum.filter
      (fun p => ¬(NAME_SORT_EXCLUDE_START ≤ p.1 ∧ p.1 ≤ NAME_SORT_EXCLUDE_END))).map
      (fun p => (p.2.name.text, p.1))
    if included.isEmpty then rom
    else
      let sorted := sortStable (fun a b => lexLe a.1 b.1) included
      let ranks := buildRanks sorted
      writeSortGo rom ranks (cards.drop 1).enum

/-! The secondary-stat binding pass of _parse_cards (lines 2049-2096).  The
model tracks, per card, which secondary row was bound (the
second_stats_index field); the copies of the eleven stat fields do not
affect control flow and are not repeated here.  Python cards[card_name_index]
raises IndexError when the index is not below len(cards), aborting the
load. -/
def secondPassGo (rom : Rom) (assigned : List (Option Nat)) :
    Nat → Nat → Except LoadErr (List (Option Nat))
  | _, 0 => .ok assigned
  | secIdx, fuel + 1 =>
    if SECOND_STATS_COUNT ≤ secIdx then .ok assigned
    else
      let stats2Off := SECOND_CARD_STATS_BASE + secIdx * SECOND_CARD_STATS_SIZE
      if rom.len < stats2Off + SECOND_CARD_STATS_SIZE then .ok assigned
      else
        let cardNameIndex := readU16 rom (CARD_ID_TABLE_BASE + secIdx * 2)
        if cardNameIndex = 0xFFFF then secondPassGo rom assigned (secIdx + 1) fuel
        else if ¬ cardNameIndex < NUM_CARD_GFX then
          secondPassGo rom assigned (secIdx + 1) fuel
        else if hidx : cardNameIndex < assigned.length then
          match assigned.get ⟨cardNameIndex, hidx⟩ with
          | some _ => secondPassGo rom assigned (secIdx + 1) fuel
          | none =>
            secondPassGo rom (assigned.set cardNameIndex (some secIdx))
              (secIdx + 1) fuel
        else .error (.indexOutOfRange cardNameIndex)

/-- The whole secondary pass over SECOND_STATS_COUNT rows, starting with no
card bound to a secondary row. -/
def secondPass (rom : Rom) (numCards : Nat) : Except LoadErr (List (Option Nat)) :=
  secondPassGo rom (List.replicate numCards none) 0 SECOND_STATS_COUNT

/-! Save pass: _apply_all_changes_to_rom (lines 2273-2289) and save_rom_as
(lines 1850-1879). -/

/-- One _write_string_and_update_pointer call on the card level: selects the
name or description record and stores the updated address and slot size back
into the card, as the Python function does through card attributes. -/
def writeCardText (rom : Rom) (c : CardEntry) (isName : Bool) :
    Except WriteErr (Rom × CardEntry) :=
  if isName then
    match writeStringAndUpdatePointer rom c.index c.name true with
    | .error e => .error e
    | .ok (rom2, r2) => .ok (rom2, { c with name := r2 })
  else
    match writeStringAndUpdatePointer rom c.index c.desc false with
    | .error e => .error e
    | .ok (rom2, r2) => .ok (rom2, { c with desc := r2 })

/-- The per-card body of the _apply_all_changes_to_rom loop. -/
def writeCardToRom (rom : Rom) (c : CardEntry) : Except WriteErr Rom :=
  match writeStringAndUpdatePointer rom c.index c.name true with
  | .error e => .error e
  | .ok (rom1, _) =>
    match writeStringAndUpdatePointer rom1 c.index c.desc false with
    | .error e => .error e
    | .ok (rom2, _) =>
      match writeStatsPrimary rom2 c with
      | .error e => .error e
      | .ok rom3 =>
        .ok (writePasswordAndPrice
          (writeCardIdEntry (writeStatsSecondary rom3 c) c.konamiId c.cardIdIndex) c)

/-- The card loop of _apply_all_changes_to_rom; the first failure aborts
the whole pass. -/
def applyCards : Rom → List CardEntry → Except WriteErr Rom
  | rom, [] => .ok rom
  | rom, c :: cs =>
    match writeCardToRom rom c with
    | .error e => .error e
    | .ok rom2 => applyCards rom2 cs

/-- Python _apply_all_changes_to_rom: all card records in index order, then
the artwork table, then the alphabetical name sort table. -/
def applyAllChangesToRom (rom : Rom) (cards : List CardEntry)
    (artworks : List ArtworkEntry) : Except WriteErr Rom :=
  match applyCards rom cards with
  | .error e => .error e
  | .ok rom2 => .ok (writeNameSortTable (writeArtworkTable rom2 artworks) cards)

/-- Python save_rom_as: apply every change to a private copy of the image;
on failure the committed image stays as it was, on success the copy becomes
the saved output.  The pair holds the resulting visible image and the error,
if any. -/
def saveRomAs (rom : Rom) (cards : List CardEntry)
    (artworks : List ArtworkEntry) : Rom × Option WriteErr :=
  match applyAllChangesToRom rom cards artworks with
  | .ok newRom => (newRom, none)
  | .error e => (rom, some e)

/-- Modelled from the claim wording, for comparison with the source
function: sort (name, card index) pairs over all card indices except the
excluded contiguous range, assign dense 1-based values so that identical
names share a value, and write each included card index i its value at
NAME_SORT_TABLE_BASE + 2 i (the write loop is shared with the code model,
only the enumeration differs: all of cards instead of cards[1:]). -/
def specNameSortTable (rom : Rom) (cards : List CardEntry) : Rom :=
  let included := (cards.enum.filter
    (fun p => ¬(NAME_SORT_EXCLUDE_START ≤ p.1 ∧ p.1 ≤ NAME_SORT_EXCLUDE_END))).map
    (fun p => (p.2.name.text, p.1))
  let sorted := sortStable (fun a b => lexLe a.1 b.1) included
  let ranks := buildRanks sorted
  writeSortGo rom ranks cards.enum

/-! Claim theorems. -/

/-- C5: for every 8-decimal-digit value pw in 00000000..99999999, decoding
the password after encoding it returns pw: the encoder packs two digits per
byte across 4 bytes and stores them byte-reversed, the decoder reverses the
bytes, reads each nibble as a digit (clamping non-decimal nibbles to 0),
concatenates the 8 digits and parses the result as an integer. -/
theorem password_roundtrip (pw : Nat) (hpw : pw < 100000000) :
    decodePassword (encodePassword pw) = pw := by
  have hbyte : ∀ hi, hi < 10 → ∀ lo, lo < 10 →
      ((if ((hi <<< 4 ||| lo) >>> 4) &&& 15 ≤ 9
          then ((hi <<< 4 ||| lo) >>> 4) &&& 15 else 0) = hi ∧
       (if (hi <<< 4 ||| lo) &&& 15 ≤ 9
          then (hi <<< 4 ||| lo) &&& 15 else 0) = lo) := by decide
  have hd0 : pw / 10000000 % 10 < 10 := Nat.mod_lt _ (by norm_num)
  have hd1 : pw / 1000000 % 10 < 10 := Nat.mod_lt _ (by norm_num)
  have hd2 : pw / 100000 % 10 < 10 := Nat.mod_lt _ (by norm_num)
  have hd3 : pw / 10000 % 10 < 10 := Nat.mod_lt _ (by norm_num)
  have hd4 : pw / 1000 % 10 < 10 := Nat.mod_lt _ (by norm_num)
  have hd5 : pw / 100 % 10 < 10 := Nat.mod_lt _ (by norm_num)
  have hd6 : pw / 10 % 10 < 10 := Nat.mod_lt _ (by norm_num)
  have hd7 : pw % 10 < 10 := Nat.mod_lt _ (by norm_num)
  simp only [decodePassword, encodePassword, pwText, List.getD_cons_zero,
    List.getD_cons_succ, List.reverse_cons, List.reverse_nil, List.nil_append,
    List.cons_append, List.map_cons, List.map_nil, List.flatten,
    List.foldl_cons, List.foldl_nil, List.append_nil]
  rw [(hbyte _ hd0 _ hd1).1, (hbyte _ hd0 _ hd1).2,
    (hbyte _ hd2 _ hd3).1, (hbyte _ hd2 _ hd3).2,
    (hbyte _ hd4 _ hd5).1, (hbyte _ hd4 _ hd5).2,
    (hbyte _ hd6 _ hd7).1, (hbyte _ hd6 _ hd7).2]
  omega

/-- C5 witness: the round trip at the concrete password 24601357. -/
theorem password_roundtrip_witness :
    24601357 < 100000000 ∧ decodePassword (encodePassword 24601357) = 24601357 :=
  ⟨by decide, password_roundtrip 24601357 (by decide)⟩

/-- C7: if the identifier-table slot for an identifier at or above the
identifier base holds the sentinel 0xFFFF, resolution through the table
returns the sentinel (and in particular never card index 0), which is the
value _parse_cards stores for the record on reload. -/
theorem sentinel_id_resolves_to_no_card (rom : Rom) (konamiId : Nat)
    (h1 : KONAMI_ID_BASE ≤ konamiId)
    (h2 : CARD_ID_TABLE_BASE + (konamiId - KONAMI_ID_BASE) * 2 + 2 ≤ rom.len)
    (h3 : readU16 rom (CARD_ID_TABLE_BASE + (konamiId - KONAMI_ID_BASE) * 2) = 0xFFFF) :
    readCardIdIndexFromTable rom konamiId = 0xFFFF ∧
      readCardIdIndexFromTable rom konamiId ≠ 0 := by
  simp only [readCardIdIndexFromTable]
  rw [if_neg (by omega), if_neg (by omega), h3]
  exact ⟨rfl, by decide⟩

/-- Image whose whole identifier table reads 0xFFFF. -/
def romC7 : Rom := ⟨fun _ => 255, CARD_ID_TABLE_BASE + 10000⟩

/-- C7 witness: the sentinel resolution at a concrete image and the base
identifier. -/
theorem sentinel_id_resolves_to_no_card_witness :
    KONAMI_ID_BASE ≤ KONAMI_ID_BASE ∧
    CARD_ID_TABLE_BASE + (KONAMI_ID_BASE - KONAMI_ID_BASE) * 2 + 2 ≤ romC7.len ∧
    readU16 romC7 (CARD_ID_TABLE_BASE + (KONAMI_ID_BASE - KONAMI_ID_BASE) * 2) = 0xFFFF ∧
    readCardIdIndexFromTable romC7 KONAMI_ID_BASE = 0xFFFF :=
  ⟨by decide, by decide, by decide,
    (sentinel_id_resolves_to_no_card romC7 KONAMI_ID_BASE (by decide) (by decide)
      (by decide)).1⟩

/-- Image for the C9 scenario: one non-zero byte at the arena start, a zero
run of exactly three bytes, then the byte 7 right after that run. -/
def romC9 : Rom :=
  ⟨fun i => if i = TEXT_BASE then 1 else if i = TEXT_BASE + 4 then 7 else 0,
   TEXT_BASE + 32⟩

/-- Record for the C9 scenario: two-character text, old slot of one byte. -/
def rC9 : TextRec := ⟨[88, 89], TEXT_BASE + 20, 1, 0⟩

/-- C9: there is an image and a relocation for which the last byte of the
claimed span lies one byte past the zero run the scan verified: the scan
checks zeros on [TEXT_BASE+1, TEXT_BASE+4) and returns TEXT_BASE+2, the
write occupies [TEXT_BASE+2, TEXT_BASE+5), and the byte at TEXT_BASE+4,
which was 7, is zeroed and overwritten by the relocated write's
terminator. -/
theorem claimed_span_overruns_verified_run :
    romC9.data (TEXT_BASE + 1) = 0 ∧ romC9.data (TEXT_BASE + 2) = 0 ∧
    romC9.data (TEXT_BASE + 3) = 0 ∧ romC9.data (TEXT_BASE + 4) = 7 ∧
    (7 : Nat) ≠ 0 ∧
    findFreeSpace romC9 3 = some (TEXT_BASE + 2) ∧
    ((writeStringAndUpdatePointer romC9 0 rC9 true).toOption.map
      (fun pr => pr.1.data (TEXT_BASE + 4))) = some 0 :=
  ⟨by decide, by decide, by decide, by decide, by decide, rfl, rfl⟩

/-- Image for the C10 scenario: the identifier-table slot for the first
secondary row holds 2098 (= number of cards, in range 2098..2330 below the
graphics-slot count 2331). -/
def romC10 : Rom :=
  ⟨fun i => if i = CARD_ID_TABLE_BASE then 0x32
    else if i = CARD_ID_TABLE_BASE + 1 then 0x08 else 0, 0x1830000⟩

/-- C10: the secondary-stat binding pass range-checks the table value
against NUM_CARD_GFX = 2331 instead of NUM_CARDS = 2098, so an image whose
table holds 2098 at a secondary row position passes the check and the card
list indexing raises, aborting the load instead of skipping the row. -/
theorem second_pass_index_out_of_range :
    NUM_CARDS = 2098 ∧ NUM_CARD_GFX = 2331 ∧
    readU16 romC10 (CARD_ID_TABLE_BASE + 0 * 2) = 2098 ∧
    (2098 < NUM_CARD_GFX ∧ ¬ 2098 < NUM_CARDS) ∧
    secondPass romC10 NUM_CARDS = .error (.indexOutOfRange 2098) := by
  have hread : readU16 romC10 (CARD_ID_TABLE_BASE + 0 * 2) = 2098 := by decide
  have hlen : ¬ ((2098 : Nat) < (List.replicate NUM_CARDS (none : Option Nat)).length) := by
    rw [List.length_replicate]
    decide
  refine ⟨rfl, rfl, hread, by decide, ?_⟩
  show secondPassGo romC10 (List.replicate NUM_CARDS none) 0 (2647 + 1) =
    .error (.indexOutOfRange 2098)
  rw [secondPassGo]
  simp only [hread]
  rw [if_neg (by decide : ¬ (SECOND_STATS_COUNT ≤ 0)),
    if_neg (by decide : ¬ (romC10.len <
      SECOND_CARD_STATS_BASE + 0 * SECOND_CARD_STATS_SIZE + SECOND_CARD_STATS_SIZE)),
    if_neg (by decide : ¬ ((2098 : Nat) = 0xFFFF)),
    if_neg (by decide : ¬ ¬ ((2098 : Nat) < NUM_CARD_GFX)),
    dif_neg hlen]

theorem writeU32_len (rom : Rom) (off v : Nat) : (writeU32 rom off v).len = rom.len := rfl

theorem writeU32_data_at (rom : Rom) (off v : Nat) :
    (writeU32 rom off v).data off = v % 4294967296 % 256 ∧
    (writeU32 rom off v).data (off + 1) = v % 4294967296 / 256 % 256 ∧
    (writeU32 rom off v).data (off + 2) = v % 4294967296 / 65536 % 256 ∧
    (writeU32 rom off v).data (off + 3) = v % 4294967296 / 16777216 % 256 := by
  simp only [writeU32, setByte_data]
  refine ⟨?_, ?_, ?_, ?_⟩
  · rw [if_neg (by omega), if_neg (by omega), if_neg (by omega), if_pos trivial]
  · rw [if_neg (by omega), if_neg (by omega), if_pos trivial]
  · rw [if_neg (by omega), if_pos trivial]
  · rw [if_pos trivial]

theorem writeU32_data_frame (rom : Rom) (off v j : Nat)
    (h : j < off ∨ off + 4 ≤ j) : (writeU32 rom off v).data j = rom.data j := by
  simp only [writeU32, setByte_data]
  rw [if_neg (by omega), if_neg (by omega), if_neg (by omega), if_neg (by omega)]

theorem readU32_writeU32 (rom : Rom) (off v : Nat) :
    readU32 (writeU32 rom off v) off = v % 4294967296 := by
  obtain ⟨h0, h1, h2, h3⟩ := writeU32_data_at rom off v
  exact readU32_of_bytes _ off (v % 4294967296) (by omega) h0 h1 h2 h3

/-- C4: for a deck or pack whose encoded blob is larger than its original
allocation, the newly chosen blob start is 4-byte aligned, the whole window
of the needed length was entirely 0xFF before the write, the old span is
overwritten with 0xFF, and the pointer cell receives the absolute address
new_offset + GBA_ROM_BASE.  The disjointness hypotheses reflect the ROM
layout: the pointer table sits below the record area, which sits below the
free-space arena the scan allocates from. -/
theorem deck_pack_relocation_contract :
    (∀ (rom : Rom) (d : DeckEntry) (newOff : Nat),
      d.originalSize < (encodeDeckStructure d).length →
      findFreeSpaceFF rom (encodeDeckStructure d).length 4 = some newOff →
      d.ptrOff + 4 ≤ d.structOff →
      d.structOff + d.originalSize ≤ newOff →
      rom.len + GBA_ROM_BASE ≤ 4294967295 →
      newOff % 4 = 0 ∧
      (∀ i, i < (encodeDeckStructure d).length → rom.data (newOff + i) = 255) ∧
      (∀ q, d.structOff ≤ q → q < d.structOff + d.originalSize →
        (writeDeckToRom rom d).1.data q = 255) ∧
      readU32 (writeDeckToRom rom d).1 d.ptrOff = newOff + GBA_ROM_BASE ∧
      (writeDeckToRom rom d).2.structOff = newOff) ∧
    (∀ (rom : Rom) (p : PackEntry) (newOff : Nat),
      p.originalContentsSize < (encodePackContents p).length →
      (0 : Int) ≤ p.contentsOff →
      0 < p.originalContentsSize →
      findFreeSpaceFF (writePackHeader rom p) (encodePackContents p).length 4 = some newOff →
      p.ptrOff + 4 ≤ p.contentsOff.toNat →
      p.contentsOff.toNat + p.originalContentsSize ≤ newOff →
      rom.len + GBA_ROM_BASE ≤ 4294967295 →
      newOff % 4 = 0 ∧
      (∀ i, i < (encodePackContents p).length →
        (writePackHeader rom p).data (newOff + i) = 255) ∧
      (∀ q, p.contentsOff.toNat ≤ q → q < p.contentsOff.toNat + p.originalContentsSize →
        (writePackToRom rom p).1.data q = 255) ∧
      readU32 (writePackToRom rom p).1 p.ptrOff = newOff + GBA_ROM_BASE ∧
      (writePackToRom rom p).2.contentsOff = (newOff : Int)) := by
  constructor
  · intro rom d newOff hgrow hfind hptr hdisj hlen
    obtain ⟨halign, hfss, hbound, hff⟩ :=
      findFreeSpaceFF_sound rom (encodeDeckStructure d).length newOff hfind
    have hdef : writeDeckToRom rom d =
        (writeU32 (writeBytes (fillFF rom d.structOff d.originalSize) newOff
            (encodeDeckStructure d)) d.ptrOff (newOff + GBA_ROM_BASE),
          { d with structOff := newOff,
                   originalSize := (encodeDeckStructure d).length }) := by
      simp only [writeDeckToRom, hfind]
      rw [if_neg (by omega)]
    refine ⟨halign, hff, ?_, ?_, ?_⟩
    · intro q hq1 hq2
      rw [hdef]
      show (writeU32 _ _ _).data q = 255
      rw [writeU32_data_frame _ _ _ _ (by omega)]
      rw [writeBytes_data, if_neg (by omega)]
      rw [fillFF_data, if_pos (by omega)]
    · rw [hdef]
      show readU32 (writeU32 _ _ _) _ = _
      rw [readU32_writeU32]
      omega
    · rw [hdef]
  · intro rom p newOff hgrow hvalid horig hfind hptr hdisj hlen
    obtain ⟨halign, hfss, hbound, hff⟩ :=
      findFreeSpaceFF_sound (writePackHeader rom p) (encodePackContents p).length
        newOff hfind
    have hlen0 : (writePackHeader rom p).len = rom.len := rfl
    have hdef : writePackToRom rom p =
        (writeU32 (writeBytes (fillFF (writePackHeader rom p) p.contentsOff.toNat
            p.originalContentsSize) newOff (encodePackContents p)) p.ptrOff
            (newOff + GBA_ROM_BASE),
          { p with contentsOff := (newOff : Int),
                   originalContentsSize := (encodePackContents p).length }) := by
      simp only [writePackToRom, hfind]
      rw [if_neg (not_not_intro (Or.inr hgrow)), if_pos ⟨hvalid, horig⟩]
    refine ⟨halign, hff, ?_, ?_, ?_⟩
    · intro q hq1 hq2
      rw [hdef]
      show (writeU32 _ _ _).data q = 255
      rw [writeU32_data_frame _ _ _ _ (by omega)]
      rw [writeBytes_data, if_neg (by omega)]
      rw [fillFF_data, if_pos (by omega)]
    · rw [hdef]
      show readU32 (writeU32 _ _ _) _ = _
      rw [readU32_writeU32]
      omega
    · rw [hdef]

/-- All-0xFF image for the C4 witness. -/
def romD : Rom := ⟨fun _ => 255, 0x1700000⟩

/-- Deck whose encoding (14 bytes) outgrew its 4-byte allocation. -/
def dW : DeckEntry := ⟨0, 100, 200, [0, 0, 0, 0], [], [], 4⟩

/-- Pack whose contents encoding (20 bytes) outgrew its 4-byte allocation. -/
def pW : PackEntry := ⟨0, 300, 312, 0, 0, 5, 0, 0, 0, (400 : Int), [], 4⟩

/-- C4 witness: both relocation paths at concrete records on a concrete
image. -/
theorem deck_pack_relocation_contract_witness :
    dW.originalSize < (encodeDeckStructure dW).length ∧
    findFreeSpaceFF romD (encodeDeckStructure dW).length 4 = some FREE_SPACE_START ∧
    (writeDeckToRom romD dW).2.structOff = FREE_SPACE_START ∧
    pW.originalContentsSize < (encodePackContents pW).length ∧
    findFreeSpaceFF (writePackHeader romD pW) (encodePackContents pW).length 4 =
      some FREE_SPACE_START ∧
    (writePackToRom romD pW).2.contentsOff = (FREE_SPACE_START : Int) :=
  ⟨by decide, by decide,
    (deck_pack_relocation_contract.1 romD dW FREE_SPACE_START (by decide) (by decide)
      (by decide) (by decide) (by decide)).2.2.2.2,
    by decide, by decide,
    (deck_pack_relocation_contract.2 romD pW FREE_SPACE_START (by decide) (by decide)
      (by decide) (by decide) (by decide) (by decide) (by decide)).2.2.2.2⟩

/-- Image for the C1 counterexample: one non-zero byte at the arena start,
zeros afterwards. -/
def romC1 : Rom := ⟨fun i => if i = TEXT_BASE then 1 else 0, TEXT_BASE + 16⟩

/-- Record for the C1 counterexample: an empty old text in a 1-byte slot at
TEXT_BASE + 2, now being replaced by the 2-character text XY. -/
def rC1 : TextRec := ⟨[88, 89], TEXT_BASE + 2, 1, 0⟩

/-- C1 counterexample: a relocating write (needed = 3 exceeds the slot size
1) whose scan result equals the old address, so the address is unchanged by
the relocation and the old slot holds the first new text byte 88 rather
than zero after the save. -/
theorem text_write_counterexample :
    ¬ ((encodeAscii rC1.text).length + 1 ≤ rC1.slotSize) ∧
    findFreeSpace romC1 ((encodeAscii rC1.text).length + 1) = some rC1.addr ∧
    ((writeStringAndUpdatePointer romC1 0 rC1 true).toOption.map
      (fun pr => pr.2.addr)) = some rC1.addr ∧
    ((writeStringAndUpdatePointer romC1 0 rC1 true).toOption.map
      (fun pr => pr.1.data rC1.addr)) = some 88 ∧
    (88 : Nat) ≠ 0 :=
  ⟨by decide, rfl, rfl, rfl, by decide⟩

/-- C1 (amended): in place when the text fits and the address is inside the
image, with the address unchanged, no byte outside the slot changed, and
the unused tail zero-filled only within the slot; otherwise relocation to
the scan result (which may coincide with the old address), with the old
slot zero after the save everywhere outside the newly claimed span. -/
theorem text_write_placement (rom : Rom) (cardIndex : Nat) (r : TextRec)
    (isName : Bool) (rom2 : Rom) (r2 : TextRec)
    (hp1 : r.ptrOff + 4 ≤ TEXT_BASE) (hp2 : TEXT_BASE ≤ r.addr)
    (h : writeStringAndUpdatePointer rom cardIndex r isName = .ok (rom2, r2)) :
    ((encodeAscii r.text).length + 1 ≤ r.slotSize ∧ r.addr < rom.len →
      r2 = r ∧
      (∀ p, p < r.addr ∨ r.addr + r.slotSize ≤ p → rom2.data p = rom.data p) ∧
      (∀ p, (encodeAscii r.text).length + 1 < r.slotSize →
        r.addr + (encodeAscii r.text).length + 1 ≤ p → p < r.addr + r.slotSize →
        p < rom.len → rom2.data p = 0)) ∧
    (¬ ((encodeAscii r.text).length + 1 ≤ r.slotSize ∧ r.addr < rom.len) →
      ∃ w, findFreeSpace rom ((encodeAscii r.text).length + 1) = some w ∧
        r2.addr = w ∧ r2.slotSize = (encodeAscii r.text).length + 1 ∧
        (∀ p, r.addr ≤ p → p < r.addr + r.slotSize → p < rom.len →
          ¬ (w ≤ p ∧ p < w + ((encodeAscii r.text).length + 1)) →
          rom2.data p = 0)) := by
  constructor
  · intro hip
    obtain ⟨hr, hlen, hb, htext, hterm, htail, hframe⟩ :=
      writeString_inPlace_spec rom cardIndex r isName rom2 r2 hip.1 hip.2 h
    exact ⟨hr, hframe, htail⟩
  · intro hip
    obtain ⟨w, hfind, htext, hptrOff, haddr, hslot, hlen, hbound, hw1, _, _,
      hold, _⟩ := writeString_reloc_spec rom cardIndex r isName rom2 r2 hip h
    refine ⟨w, hfind, haddr, hslot, ?_⟩
    intro p hq1 hq2 hq3 hq4
    exact hold p hq1 hq2 hq3 hq4 (by omega)

/-- All-zero image for the C1 witness. -/
def romW1 : Rom := ⟨fun _ => 0, TEXT_BASE + 50⟩

/-- Record for the C1 witness: a 1-character text in a 10-byte slot, written
in place. -/
def rW1 : TextRec := ⟨[88], TEXT_BASE + 5, 10, CARD_NAME_PTR_BASE⟩

def resW1 : Except WriteErr (Rom × TextRec) :=
  writeStringAndUpdatePointer romW1 0 rW1 true

def romW1r : Rom := (resW1.toOption.getD (romW1, rW1)).1

def recW1r : TextRec := (resW1.toOption.getD (romW1, rW1)).2

/-- C1 witness: the amended placement theorem applied at a concrete in-place
write. -/
theorem text_write_placement_witness :
    rW1.ptrOff + 4 ≤ TEXT_BASE ∧ TEXT_BASE ≤ rW1.addr ∧
    ((encodeAscii rW1.text).length + 1 ≤ rW1.slotSize ∧ rW1.addr < romW1.len) ∧
    recW1r = rW1 :=
  ⟨by decide, by decide, by decide,
    ((text_write_placement romW1 0 rW1 true romW1r recW1r (by decide) (by decide)
      (by rfl)).1 (by decide)).1⟩

/-- C2: a relocating text write claims exactly one byte past the start of
the first (least-address) zero run of the needed length in the arena
window; the claimed span afterwards holds the encoded text and its zero
terminator (written after the span is zeroed), and the pointer cell holds
the relative value new_address - TEXT_BASE. -/
theorem text_relocation_first_fit (rom : Rom) (cardIndex : Nat) (r : TextRec)
    (isName : Bool) (rom2 : Rom) (r2 : TextRec)
    (hptr : r.ptrOff + 4 ≤ TEXT_BASE)
    (hrel : ¬ ((encodeAscii r.text).length + 1 ≤ r.slotSize ∧ r.addr < rom.len))
    (h : writeStringAndUpdatePointer rom cardIndex r isName = .ok (rom2, r2)) :
    ∃ R, RunHead rom ((encodeAscii r.text).length + 1) R ∧
      (∀ R2, RunHead rom ((encodeAscii r.text).length + 1) R2 → R ≤ R2) ∧
      r2.addr = R + 1 ∧
      (∀ i, i < (encodeAscii r.text).length →
        rom2.data (r2.addr + i) = (encodeAscii r.text).getD i 0) ∧
      rom2.data (r2.addr + (encodeAscii r.text).length) = 0 ∧
      readU32 rom2 r.ptrOff = r2.addr - TEXT_BASE := by
  obtain ⟨w, hfind, htext, hptrOff, haddr, hslot, hlen, hbound, hw1, hspan,
    hterm, hold, hcell⟩ := writeString_reloc_spec rom cardIndex r isName rom2 r2 hrel h
  obtain ⟨R, hRhead, hRmin, hwR⟩ :=
    findFreeSpace_some_spec rom ((encodeAscii r.text).length + 1) w (by omega) hfind
  refine ⟨R, hRhead, hRmin, by omega, ?_, ?_, ?_⟩
  · intro i hi
    rw [haddr]
    exact hspan i hi
  · rw [haddr]
    exact hterm
  · rw [haddr]
    exact hcell hptr

/-- All-zero image for the C2 witness. -/
def romW2 : Rom := ⟨fun _ => 0, TEXT_BASE + 40⟩

/-- Record for the C2 witness: a 2-character text outgrowing its 1-byte
slot. -/
def rW2 : TextRec := ⟨[88, 89], TEXT_BASE + 5, 1, CARD_NAME_PTR_BASE⟩

def resW2 : Except WriteErr (Rom × TextRec) :=
  writeStringAndUpdatePointer romW2 0 rW2 true

def romW2r : Rom := (resW2.toOption.getD (romW2, rW2)).1

def recW2r : TextRec := (resW2.toOption.getD (romW2, rW2)).2

/-- C2 witness: the relocation theorem applied at a concrete grown text. -/
theorem text_relocation_first_fit_witness :
    rW2.ptrOff + 4 ≤ TEXT_BASE ∧
    ¬ ((encodeAscii rW2.text).length + 1 ≤ rW2.slotSize ∧ rW2.addr < romW2.len) ∧
    ∃ R, RunHead romW2 ((encodeAscii rW2.text).length + 1) R ∧
      (∀ R2, RunHead romW2 ((encodeAscii rW2.text).length + 1) R2 → R ≤ R2) ∧
      recW2r.addr = R + 1 ∧
      (∀ i, i < (encodeAscii rW2.text).length →
        romW2r.data (recW2r.addr + i) = (encodeAscii rW2.text).getD i 0) ∧
      romW2r.data (recW2r.addr + (encodeAscii rW2.text).length) = 0 ∧
      readU32 romW2r rW2.ptrOff = recW2r.addr - TEXT_BASE :=
  ⟨by decide, by decide,
    text_relocation_first_fit romW2 0 rW2 true romW2r recW2r (by decide) (by decide)
      (by rfl)⟩

theorem finishTextWrite_error_shape (rom : Rom) (r : TextRec)
    (writeAddr origAddr origSlot needed : Nat) (enc : List Nat) (e : WriteErr)
    (h : finishTextWrite rom r writeAddr origAddr origSlot needed enc = .error e) :
    e = .writeOutOfBounds ∨ e = .noTerminatorSpace := by
  simp only [finishTextWrite] at h
  by_cases h1 : rom.len < writeAddr + needed
  · rw [if_pos h1] at h
    simp only [Except.error.injEq] at h
    exact Or.inl h.symm
  · rw [if_neg h1] at h
    by_cases h2 : writeAddr + enc.length < (writeBytes rom writeAddr enc).len
    · rw [if_pos h2] at h
      exact absurd h (by simp)
    · rw [if_neg h2] at h
      simp only [Except.error.injEq] at h
      exact Or.inr h.symm

theorem writeString_noFreeSpace_shape (rom : Rom) (ci : Nat) (r : TextRec)
    (b : Bool) (idx needed : Nat) (bb : Bool)
    (h : writeStringAndUpdatePointer rom ci r b = .error (.noFreeSpace idx needed bb)) :
    idx = ci ∧ needed = (encodeAscii r.text).length + 1 ∧ bb = b := by
  simp only [writeStringAndUpdatePointer] at h
  by_cases hip : (encodeAscii r.text).length + 1 ≤ r.slotSize ∧ r.addr < rom.len
  · rw [if_pos hip] at h
    rcases finishTextWrite_error_shape _ _ _ _ _ _ _ _ h with h1 | h1 <;> simp at h1
  · rw [if_neg hip] at h
    cases hfind : findFreeSpace rom ((encodeAscii r.text).length + 1) with
    | none =>
      simp only [hfind, Except.error.injEq, WriteErr.noFreeSpace.injEq] at h
      exact ⟨h.1.symm, h.2.1.symm, h.2.2.symm⟩
    | some w =>
      simp only [hfind] at h
      by_cases hc : w < TEXT_BASE ∨ TEXT_BASE + 4294967295 < w
      · rw [if_pos hc] at h
        simp only [Except.error.injEq] at h
        simp at h
      · rw [if_neg hc] at h
        rcases finishTextWrite_error_shape _ _ _ _ _ _ _ _ h with h1 | h1 <;> simp at h1

theorem writeStatsPrimary_error_shape (rom : Rom) (c : CardEntry) (e : WriteErr)
    (h : writeStatsPrimary rom c = .error e) : e = .statsOutOfRange c.index := by
  simp only [writeStatsPrimary] at h
  by_cases h1 : rom.len < CARD_STATS_BASE + c.index * CARD_STATS_SIZE + CARD_STATS_SIZE
  · rw [if_pos h1] at h
    simp only [Except.error.injEq] at h
    exact h.symm
  · rw [if_neg h1] at h
    exact absurd h (by simp)

theorem writeCardToRom_noFreeSpace (rom : Rom) (c : CardEntry)
    (idx needed : Nat) (bb : Bool)
    (h : writeCardToRom rom c = .error (.noFreeSpace idx needed bb)) :
    idx = c.index ∧
      (needed = (encodeAscii c.name.text).length + 1 ∨
       needed = (encodeAscii c.desc.text).length + 1) := by
  simp only [writeCardToRom] at h
  cases h1 : writeStringAndUpdatePointer rom c.index c.name true with
  | error e =>
    simp only [h1, Except.error.injEq] at h
    subst h
    obtain ⟨ha, hb, _⟩ := writeString_noFreeSpace_shape _ _ _ _ _ _ _ h1
    exact ⟨ha, Or.inl hb⟩
  | ok pr1 =>
    obtain ⟨rom1, rc1⟩ := pr1
    simp only [h1] at h
    cases h2 : writeStringAndUpdatePointer rom1 c.index c.desc false with
    | error e =>
      simp only [h2, Except.error.injEq] at h
      subst h
      obtain ⟨ha, hb, _⟩ := writeString_noFreeSpace_shape _ _ _ _ _ _ _ h2
      exact ⟨ha, Or.inr hb⟩
    | ok pr2 =>
      obtain ⟨rom2, rc2⟩ := pr2
      simp only [h2] at h
      cases h3 : writeStatsPrimary rom2 c with
      | error e =>
        simp only [h3, Except.error.injEq] at h
        subst h
        have := writeStatsPrimary_error_shape _ _ _ h3
        simp at this
      | ok rom3 =>
        simp only [h3] at h
        exact absurd h (by simp)

theorem applyCards_noFreeSpace (cards : List CardEntry) :
    ∀ (rom : Rom) (idx needed : Nat) (bb : Bool),
      applyCards rom cards = .error (.noFreeSpace idx needed bb) →
      ∃ c ∈ cards, c.index = idx ∧
        (needed = (encodeAscii c.name.text).length + 1 ∨
         needed = (encodeAscii c.desc.text).length + 1) := by
  induction cards with
  | nil =>
    intro rom idx needed bb h
    exact absurd h (by simp [applyCards])
  | cons c cs ih =>
    intro rom idx needed bb h
    simp only [applyCards] at h
    cases h1 : writeCardToRom rom c with
    | error e =>
      simp only [h1, Except.error.injEq] at h
      subst h
      obtain ⟨ha, hb⟩ := writeCardToRom_noFreeSpace _ _ _ _ _ h1
      exact ⟨c, List.mem_cons_self c cs, ha.symm, hb⟩
    | ok rom2 =>
      simp only [h1] at h
      obtain ⟨c2, hc2, hrest⟩ := ih rom2 idx needed bb h
      exact ⟨c2, List.mem_cons_of_mem c hc2, hrest⟩

/-- C3: any record-write failure aborts the whole save, the committed image
is returned byte-for-byte unchanged (save works on a private copy), and an
allocation failure carries the failing record's index and the byte count it
needed (the encoded text length plus terminator). -/
theorem save_abort_clean (rom : Rom) (cards : List CardEntry)
    (artworks : List ArtworkEntry) (e : WriteErr)
    (h : applyAllChangesToRom rom cards artworks = .error e) :
    saveRomAs rom cards artworks = (rom, some e) ∧
    ∀ idx needed bb, e = .noFreeSpace idx needed bb →
      ∃ c ∈ cards, c.index = idx ∧
        (needed = (encodeAscii c.name.text).length + 1 ∨
         needed = (encodeAscii c.desc.text).length + 1) := by
  constructor
  · simp only [saveRomAs, h]
  · intro idx needed bb he
    subst he
    simp only [applyAllChangesToRom] at h
    cases h1 : applyCards rom cards with
    | error e2 =>
      simp only [h1, Except.error.injEq] at h
      subst h
      exact applyCards_noFreeSpace cards rom idx needed bb h1
    | ok rom2 =>
      simp only [h1] at h
      exact absurd h (by simp)

/-- All-ones image (no zero run anywhere in the text arena) for the C3
witness. -/
def romW3 : Rom := ⟨fun _ => 1, TEXT_BASE + 8⟩

/-- Card 5 whose name grew beyond its slot for the C3 witness. -/
def cW3 : CardEntry :=
  ⟨5, ⟨[88, 89], TEXT_BASE, 1, CARD_NAME_PTR_BASE⟩, ⟨[], TEXT_BASE, 1, CARD_DESC_PTR_BASE⟩,
   0, 0, 0, 0, 0, 0, 0, 0, 0, 0, 0, 0, 0, 0, -1, 0, 0, 0, 0, 0, 0, 0, 0, 0, 0, 0, 0⟩

/-- C3 witness: with no sufficient zero run, the save of card 5 fails with
the allocation error citing index 5 and 3 bytes needed, and the committed
image is returned unchanged. -/
theorem save_abort_clean_witness :
    applyAllChangesToRom romW3 [cW3] [] = .error (.noFreeSpace 5 3 true) ∧
    saveRomAs romW3 [cW3] [] = (romW3, some (.noFreeSpace 5 3 true)) :=
  ⟨by rfl,
    (save_abort_clean romW3 [cW3] [] (.noFreeSpace 5 3 true) (by rfl)).1⟩

/-- Card with a given index and name and all other fields zero, for the C6
scenario. -/
def testCard (ix : Nat) (nm : List Nat) : CardEntry :=
  ⟨ix, ⟨nm, 0, 1, 0⟩, ⟨[], 0, 1, 0⟩,
   0, 0, 0, 0, 0, 0, 0, 0, 0, 0, 0, 0, 0, 0, -1,
   0, 0, 0, 0, 0, 0, 0, 0, 0, 0, 0, 0⟩

/-- All-zero image covering the sort table, for the C6 scenario. -/
def romC6 : Rom := ⟨fun _ => 0, 0x1840000⟩

/-- Cards 0, 1, 2 named B, A, B. -/
def cardsC6 : List CardEntry :=
  [testCard 0 [66], testCard 1 [65], testCard 2 [66]]

/-- C6 divergence: the code iterates enumerate(self.cards[1:]), so card
index 1 ("A") is written at the table base (value 1) and card 0 is ignored
entirely, while the claim (and the function's own docstring, entry for card
i goes to NAME_SORT_TABLE_BASE + i*2) puts card 0's value (2, the dense
1-based value of "B" over all three cards) at the base and card 2's value
at base + 4, which the code leaves untouched. -/
theorem name_sort_slot_shift_demo :
    (writeNameSortTable romC6 cardsC6).data NAME_SORT_TABLE_BASE = 1 ∧
    (specNameSortTable romC6 cardsC6).data NAME_SORT_TABLE_BASE = 2 ∧
    (writeNameSortTable romC6 cardsC6).data (NAME_SORT_TABLE_BASE + 2 * 2) = 0 ∧
    (specNameSortTable romC6 cardsC6).data (NAME_SORT_TABLE_BASE + 2 * 2) = 2 :=
  ⟨rfl, rfl, rfl, rfl⟩

theorem readCString_ok (rom : Rom) (addr : Nat) (s : List Nat) (len : Nat)
    (h : readCString rom addr = .ok (s, len)) :
    addr < rom.len ∧ s.length = len := by
  simp only [readCString] at h
  by_cases hb : rom.len ≤ addr
  · rw [if_pos hb] at h
    exact absurd h (by simp)
  · rw [if_neg hb] at h
    simp only [Except.ok.injEq, Prod.mk.injEq] at h
    obtain ⟨hs, hl⟩ := h
    refine ⟨by omega, ?_⟩
    rw [← hs, ← hl]
    exact List.length_map _ _

/-- Common shape of a successful text write: text preserved, slot large
enough for the encoding plus terminator, address inside the image and not
below the arena base if it was not before. -/
theorem writeString_post (rom : Rom) (ci : Nat) (r : TextRec) (b : Bool)
    (rom2 : Rom) (r2 : TextRec)
    (h : writeStringAndUpdatePointer rom ci r b = .ok (rom2, r2)) :
    r2.text = r.text ∧ rom2.len = rom.len ∧
    (encodeAscii r2.text).length + 1 ≤ r2.slotSize ∧ r2.addr < rom.len ∧
    (TEXT_BASE ≤ r.addr → TEXT_BASE ≤ r2.addr) := by
  by_cases hip : (encodeAscii r.text).length + 1 ≤ r.slotSize ∧ r.addr < rom.len
  · obtain ⟨hr, hlen, _, _, _, _, _⟩ :=
      writeString_inPlace_spec rom ci r b rom2 r2 hip.1 hip.2 h
    subst hr
    exact ⟨rfl, hlen, hip.1, hip.2, fun hb => hb⟩
  · obtain ⟨w, hfind, htext, hptrOff, haddr, hslot, hlen, hbound, hw1, _, _, _, _⟩ :=
      writeString_reloc_spec rom ci r b rom2 r2 hip h
    refine ⟨htext, hlen, ?_, ?_, ?_⟩
    · rw [htext, hslot]
    · omega
    · intro _
      omega

/-- C8 (amended): at parse the text address is inside the image and at or
above the arena base (it may exceed the arena limit), with the slot size
equal to the read length plus one; every successful save-time text write
keeps the record's index, keeps the address inside the image and at or
above the arena base if it was, and leaves the slot size at least the
encoded length plus one. -/
theorem card_text_invariants :
    (∀ (rom : Rom) (i : Nat) (r : TextRec), parseCardNameRec rom i = .ok r →
      TEXT_BASE ≤ r.addr ∧ r.addr < rom.len ∧ r.slotSize = r.text.length + 1) ∧
    (∀ (rom : Rom) (c : CardEntry) (isName : Bool) (rom2 : Rom) (c2 : CardEntry),
      writeCardText rom c isName = .ok (rom2, c2) →
      c2.index = c.index ∧ rom2.len = rom.len ∧
      (isName = true →
        (encodeAscii c2.name.text).length + 1 ≤ c2.name.slotSize ∧
        c2.name.addr < rom.len ∧
        (TEXT_BASE ≤ c.name.addr → TEXT_BASE ≤ c2.name.addr)) ∧
      (isName = false →
        (encodeAscii c2.desc.text).length + 1 ≤ c2.desc.slotSize ∧
        c2.desc.addr < rom.len ∧
        (TEXT_BASE ≤ c.desc.addr → TEXT_BASE ≤ c2.desc.addr))) := by
  constructor
  · intro rom i r h
    simp only [parseCardNameRec] at h
    cases hr : readCString rom (TEXT_BASE + readU32 rom (CARD_NAME_PTR_BASE + i * 4)) with
    | error e =>
      simp only [hr] at h
      exact absurd h (by simp)
    | ok pr =>
      obtain ⟨s, len⟩ := pr
      simp only [hr, Except.ok.injEq] at h
      obtain ⟨h1, h2⟩ := readCString_ok _ _ _ _ hr
      subst h
      exact ⟨Nat.le_add_right _ _, h1, by rw [h2]⟩
  · intro rom c isName rom2 c2 h
    simp only [writeCardText] at h
    cases isName with
    | true =>
      simp only [if_pos rfl] at h
      cases h1 : writeStringAndUpdatePointer rom c.index c.name true with
      | error e =>
        simp only [h1] at h
        exact absurd h (by simp)
      | ok pr =>
        obtain ⟨romr, rr⟩ := pr
        simp only [h1, Except.ok.injEq, Prod.mk.injEq] at h
        obtain ⟨rfl, rfl⟩ := h
        obtain ⟨htext, hlen, hslot, haddr, hbase⟩ := writeString_post _ _ _ _ _ _ h1
        exact ⟨rfl, hlen, fun _ => ⟨hslot, haddr, hbase⟩, fun hfalse => absurd hfalse (by decide)⟩
    | false =>
      rw [if_neg (by decide)] at h
      cases h1 : writeStringAndUpdatePointer rom c.index c.desc false with
      | error e =>
        simp only [h1] at h
        exact absurd h (by simp)
      | ok pr =>
        obtain ⟨romr, rr⟩ := pr
        simp only [h1, Except.ok.injEq, Prod.mk.injEq] at h
        obtain ⟨rfl, rfl⟩ := h
        obtain ⟨htext, hlen, hslot, haddr, hbase⟩ := writeString_post _ _ _ _ _ _ h1
        exact ⟨rfl, hlen, fun htrue => absurd htrue (by decide), fun _ => ⟨hslot, haddr, hbase⟩⟩

/-- Image for the C8 counterexample: the first name pointer holds relative
value 404938, placing the text address 100 bytes past the arena limit but
inside the image. -/
def romC8 : Rom :=
  ⟨fun i => if i = CARD_NAME_PTR_BASE then 0xCA
    else if i = CARD_NAME_PTR_BASE + 1 then 0x2D
    else if i = CARD_NAME_PTR_BASE + 2 then 0x06 else 0,
   TEXT_LIMIT + 1000⟩

/-- The record the parse produces on romC8. -/
def rC8 : TextRec := ⟨[], TEXT_BASE + 404938, 1, CARD_NAME_PTR_BASE⟩

/-- C8 counterexample: parsing succeeds although the text address lies past
the arena limit TEXT_LIMIT, so the claimed invariant "text address lies
within the text arena bounds" fails at parse time. -/
theorem parse_addr_outside_arena :
    parseCardNameRec romC8 0 = .ok rC8 ∧
    TEXT_LIMIT < rC8.addr ∧ rC8.addr < romC8.len :=
  ⟨rfl, by decide, by decide⟩

/-- Card for the C8 witness, reusing the C1 witness record. -/
def cW8 : CardEntry :=
  ⟨7, rW1, ⟨[], 0, 1, 0⟩,
   0, 0, 0, 0, 0, 0, 0, 0, 0, 0, 0, 0, 0, 0, -1,
   0, 0, 0, 0, 0, 0, 0, 0, 0, 0, 0, 0⟩

def resW8 : Except WriteErr (Rom × CardEntry) := writeCardText romW1 cW8 true

def cW8r : CardEntry := (resW8.toOption.getD (romW1, cW8)).2

/-- C8 witness: the invariant theorem applied at a concrete parse and at a
concrete write. -/
theorem card_text_invariants_witness :
    parseCardNameRec romC8 0 = .ok rC8 ∧
    (TEXT_BASE ≤ rC8.addr ∧ rC8.addr < romC8.len ∧
      rC8.slotSize = rC8.text.length + 1) ∧
    writeCardText romW1 cW8 true = .ok ((resW8.toOption.getD (romW1, cW8)).1, cW8r) ∧
    cW8r.index = cW8.index :=
  ⟨rfl, (card_text_invariants.1 romC8 0 rC8 (by rfl)),
   rfl, (card_text_invariants.2 romW1 cW8 true
     (resW8.toOption.getD (romW1, cW8)).1 cW8r (by rfl)).1⟩

end CyberTwin
